import Mathlib

/-!
Verification development for the Tinyshot HTML-to-compact-snapshot engine
(`src/mcp/tools/tinyshot/tinyshot.ts`).

Strings are modelled as `List Char` (JS strings are sequences of UTF-16 code
units; all inputs considered here are BMP characters, where a Lean `Char`
corresponds to one code unit).  The DOM produced by JSDOM is modelled by the
tree type `DNode`; an element attached to a document position is a `LocE`
(node, ancestor chain, and its path from the root, which plays the role of
JavaScript object identity within one document).  The JSDOM parser itself is
external library code and is passed in as a function
`parse : Str → Option DNode` (`none` models the constructor throwing).
-/

set_option maxRecDepth 100000

abbrev Str := List Char

namespace JsStr

/-- JavaScript `\s` / `trim` whitespace class (ASCII part plus the common
Unicode members; all inputs used in this development are ASCII). -/
def isWs (c : Char) : Bool :=
  c = ' ' ∨ c = '\t' ∨ c = '\n' ∨ c.toNat = 11 ∨ c.toNat = 12 ∨ c = '\r' ∨
  c.toNat = 0xa0 ∨ c.toNat = 0x1680 ∨ (0x2000 ≤ c.toNat ∧ c.toNat ≤ 0x200a) ∨
  c.toNat = 0x2028 ∨ c.toNat = 0x2029 ∨ c.toNat = 0x202f ∨ c.toNat = 0x205f ∨
  c.toNat = 0x3000 ∨ c.toNat = 0xfeff

/-- JS regexp `.` (without the `s` flag) matches everything except line
terminators. -/
def isDotChar (c : Char) : Bool :=
  ¬ (c = '\n' ∨ c = '\r' ∨ c.toNat = 0x2028 ∨ c.toNat = 0x2029)

/-- `String.prototype.toLowerCase` (ASCII case mapping suffices here). -/
def lowerStr (s : Str) : Str := s.map Char.toLower

/-- `String.prototype.trim`. -/
def jsTrim (s : Str) : Str :=
  ((s.dropWhile isWs).reverse.dropWhile isWs).reverse

/-- Does `p` occur at the start of `s`? -/
def startsWith : Str → Str → Bool
  | [], _ => true
  | _ :: _, [] => false
  | p :: ps, c :: cs => p == c && startsWith ps cs

/-- `String.prototype.includes`: substring occurrence. -/
def substrOf (m : Str) : Str → Bool
  | [] => startsWith m []
  | c :: rest => startsWith m (c :: rest) || substrOf m rest

/-- `Array.prototype.join(sep)`. -/
def joinSep (sep : Str) : List Str → Str
  | [] => []
  | [x] => x
  | x :: y :: t => x ++ sep ++ joinSep sep (y :: t)

/-- Split a class attribute value into its (deduplicated) tokens, as
`Element.classList` exposes it. -/
def classTokens (s : Str) : List Str :=
  dedup ((s.splitOnP (fun c => isWs c)).filter (· ≠ []))
where
  dedup : List Str → List Str
    | [] => []
    | x :: t => x :: (dedup t).filter (· ≠ x)

end JsStr

/-- A DOM node: an element with tag name (stored lowercase, as JSDOM
canonicalizes HTML tag names), attribute list, and child nodes — or a text
node. -/
inductive DNode where
  | elem (tag : Str) (attrs : List (Str × Str)) (children : List DNode)
  | text (s : Str)

namespace DNode

def tag : DNode → Str
  | .elem t _ _ => t
  | .text _ => []

def attrs : DNode → List (Str × Str)
  | .elem _ a _ => a
  | .text _ => []

def childNodes : DNode → List DNode
  | .elem _ _ c => c
  | .text _ => []

def isElem : DNode → Bool
  | .elem _ _ _ => true
  | .text _ => false

/-- `Element.getAttribute` (first binding wins, `none` for absent). -/
def getAttr (n : DNode) (name : Str) : Option Str :=
  (n.attrs.find? (fun p => p.1 == name)).map (·.2)

def hasAttr (n : DNode) (name : Str) : Bool :=
  (n.getAttr name).isSome

/-- `Element.id` (empty string when absent). -/
def idAttr (n : DNode) : Str := (n.getAttr "id".toList).getD []

/-- `Element.className` (empty string when absent). -/
def classNameAttr (n : DNode) : Str := (n.getAttr "class".toList).getD []

/-- `Array.from(element.classList)`. -/
def classList (n : DNode) : List Str := JsStr.classTokens n.classNameAttr

/-- Element children (`element.children`), paired with their index among all
child nodes (the index is used for document paths). -/
def childElemsIdx (n : DNode) : List (Nat × DNode) :=
  (n.childNodes.enum).filter (fun p => p.2.isElem)

mutual

/-- `Node.textContent`: concatenation of all descendant text. -/
def textContent : DNode → Str
  | .text s => s
  | .elem _ _ c => textContentList c

def textContentList : List DNode → Str
  | [] => []
  | n :: t => textContent n ++ textContentList t

end

end DNode

/-- An element located in a document: the node, its strict ancestors (nearest
first), and its path of child-node indices from the root (the stand-in for
JavaScript object identity). -/
structure LocE where
  path : List Nat
  node : DNode
  ancestors : List DNode

mutual

/-- All elements of the subtree, in document (pre-order) order. -/
def allElemsNode (n : DNode) (anc : List DNode) (p : List Nat) : List LocE :=
  match n with
  | .text _ => []
  | .elem t a c => ⟨p, .elem t a c, anc⟩ :: allElemsList c (.elem t a c :: anc) p 0

def allElemsList (l : List DNode) (anc : List DNode) (p : List Nat) (i : Nat) :
    List LocE :=
  match l with
  | [] => []
  | n :: rest => allElemsNode n anc (p ++ [i]) ++ allElemsList rest anc p (i + 1)

end

/-- `document.querySelectorAll(sel)` restricted to a whole document. -/
def allElems (doc : DNode) : List LocE := allElemsNode doc [] []

/-- `Elem.type` in `types.ts`: the closed enumeration of element kinds. -/
inductive EType where
  | btn | input | link | select
deriving DecidableEq

/-- The `Elem` interface of `types.ts` (the optional `xpath`/`id` fields are
never produced by the compressor and are omitted). -/
structure Elem where
  type : EType
  text : Str
  sel : Str
  context : Option Str := none
deriving DecidableEq

/-- The `CompSnapshot` interface of `types.ts`. -/
structure CompSnapshot where
  title : Str
  text : Str
  elems : List Elem
deriving DecidableEq

/-- The `CompOpts` interface, with the defaults that `Tinyshot.tiny`
destructures (`maxText = 1000`, `maxElems = 15`); options are modelled as
positive integers already present (absent fields are the defaults). -/
structure CompOpts where
  maxText : Nat := 1000
  maxElems : Nat := 15
deriving DecidableEq

instance {ε α : Type _} [DecidableEq ε] [DecidableEq α] : DecidableEq (Except ε α) :=
  fun a b =>
    match a, b with
    | .error e, .error f =>
      if h : e = f then .isTrue (by rw [h]) else .isFalse (fun hh => h (by injection hh))
    | .error _, .ok _ => .isFalse (fun hh => by injection hh)
    | .ok _, .error _ => .isFalse (fun hh => by injection hh)
    | .ok x, .ok y =>
      if h : x = y then .isTrue (by rw [h]) else .isFalse (fun hh => h (by injection hh))

/-- Insertion-ordered maps, modelling JavaScript `Map` (used for the class'
static caches). -/
def mapGet [DecidableEq α] : List (α × β) → α → Option β
  | [], _ => none
  | (k', v) :: t, k => if k' = k then some v else mapGet t k

/-- `Map.prototype.set`: update in place if present, else append. -/
def mapSet [DecidableEq α] : List (α × β) → α → β → List (α × β)
  | [], k, v => [(k, v)]
  | (k', v') :: t, k, v =>
    if k' = k then (k', v) :: t else (k', v') :: mapSet t k v

/-- The static cache state of class `Tinyshot`: `domCache`, `selectorCache`
and `lastCacheCleanup`.  Time is passed explicitly (`Date.now()` values). -/
structure St where
  domCache : List (Int × DNode)
  selCache : List (Str × Str)
  lastCleanup : Nat

/-- The state at module load: both caches empty (`lastCacheCleanup` is the
load instant, normalized to 0). -/
def St.empty : St := ⟨[], [], 0⟩

namespace Rx

/-! Faithful matchers for the handful of concrete regular expressions the
source uses.  Each one implements exactly the JS semantics of its regex:
leftmost match, greedy `[^>]*`/`[^>]+`, lazy `.*?` (`.` excludes line
terminators) or `[\s\S]*?` (matches everything), `i` flag via ASCII
case-insensitive comparison of the literal parts. -/

/-- Case-insensitive literal match at the start; returns the remainder. -/
def ciMatch : Str → Str → Option Str
  | [], s => some s
  | _ :: _, [] => none
  | p :: ps, c :: cs => if p.toLower = c.toLower then ciMatch ps cs else none

theorem ciMatch_length {p s r : Str} (h : ciMatch p s = some r) :
    r.length ≤ s.length := by
  induction p generalizing s with
  | nil => simp only [ciMatch, Option.some.injEq] at h; subst h; exact le_refl _
  | cons a ps ih =>
    cases s with
    | nil => simp [ciMatch] at h
    | cons c cs =>
      simp only [ciMatch] at h
      split at h
      · exact le_trans (ih h) (Nat.le_succ _)
      · exact absurd h (by simp)

theorem ciMatch_length_lt {p s r : Str} (hp : p ≠ []) (h : ciMatch p s = some r) :
    r.length < s.length := by
  cases p with
  | nil => exact absurd rfl hp
  | cons a ps =>
    cases s with
    | nil => simp [ciMatch] at h
    | cons c cs =>
      simp only [ciMatch] at h
      split at h
      · exact Nat.lt_succ_of_le (ciMatch_length h)
      · exact absurd h (by simp)

/-- `[^>]*>`: drop non-`>` characters, then require and consume `>`. -/
def tagRest (s : Str) : Option Str :=
  match s.dropWhile (· ≠ '>') with
  | '>' :: r => some r
  | _ => none

theorem tagRest_length {s r : Str} (h : tagRest s = some r) :
    r.length < s.length := by
  unfold tagRest at h
  have hsub : (s.dropWhile (· ≠ '>')).length ≤ s.length :=
    (List.dropWhile_sublist _).length_le
  split at h
  next heq =>
    cases h
    rw [heq] at hsub
    simpa using Nat.lt_of_lt_of_le (Nat.lt_succ_self _) hsub
  next => exact absurd h (by simp)

/-- `<[^>]+>` after the `<` has been seen: at least one non-`>` character,
then `>`; returns the remainder. -/
def tagMatch : Str → Option Str
  | [] => none
  | c :: rest => if c = '>' then none else tagRest rest

theorem tagMatch_length {s r : Str} (h : tagMatch s = some r) :
    r.length < s.length := by
  cases s with
  | nil => simp [tagMatch] at h
  | cons c rest =>
    simp only [tagMatch] at h
    split at h
    · exact absurd h (by simp)
    · exact Nat.lt_trans (tagRest_length h) (Nat.lt_succ_self _)

/-- Lazy `.*?` up to a closing literal (case-insensitive): returns the
matched middle and the remainder after the literal.  `.` excludes line
terminators. -/
def lazyUntil (close : Str) : Str → Option (Str × Str)
  | [] => (ciMatch close []).map (fun r => ([], r))
  | c :: rest =>
    match ciMatch close (c :: rest) with
    | some r => some ([], r)
    | none =>
      if JsStr.isDotChar c then
        (lazyUntil close rest).map (fun p => (c :: p.1, p.2))
      else none

/-- Lazy `[\s\S]*?` up to a closing literal (case-insensitive). -/
def lazyUntilAll (close : Str) : Str → Option (Str × Str)
  | [] => (ciMatch close []).map (fun r => ([], r))
  | c :: rest =>
    match ciMatch close (c :: rest) with
    | some r => some ([], r)
    | none => (lazyUntilAll close rest).map (fun p => (c :: p.1, p.2))

theorem lazyUntil_length {close s : Str} {m r : Str}
    (h : lazyUntil close s = some (m, r)) : r.length ≤ s.length := by
  induction s generalizing m with
  | nil =>
    simp only [lazyUntil, Option.map_eq_some'] at h
    obtain ⟨r', hr', h2⟩ := h
    cases h2
    exact ciMatch_length hr'
  | cons c rest ih =>
    simp only [lazyUntil] at h
    split at h
    next heq => cases h; exact ciMatch_length heq
    next =>
      split at h
      · simp only [Option.map_eq_some'] at h
        obtain ⟨⟨m', r'⟩, hp, h2⟩ := h
        cases h2
        exact le_trans (ih hp) (Nat.le_succ _)
      · exact absurd h (by simp)

theorem lazyUntilAll_length {close s : Str} {m r : Str}
    (h : lazyUntilAll close s = some (m, r)) : r.length ≤ s.length := by
  induction s generalizing m with
  | nil =>
    simp only [lazyUntilAll, Option.map_eq_some'] at h
    obtain ⟨r', hr', h2⟩ := h
    cases h2
    exact ciMatch_length hr'
  | cons c rest ih =>
    simp only [lazyUntilAll] at h
    split at h
    next heq => cases h; exact ciMatch_length heq
    next =>
      simp only [Option.map_eq_some'] at h
      obtain ⟨⟨m', r'⟩, hp, h2⟩ := h
      cases h2
      exact le_trans (ih hp) (Nat.le_succ _)

end Rx

namespace Rx

/-- One attempted match of `<script[^>]*>[\s\S]*?<\/script>` (flag `i`) at the
current position; returns the remainder after the whole match. -/
def scriptMatchAt (openTag closeTag : Str) (s : Str) : Option Str :=
  match ciMatch openTag s with
  | none => none
  | some r1 =>
    match tagRest r1 with
    | none => none
    | some r2 => (lazyUntilAll closeTag r2).map (·.2)

theorem scriptMatchAt_length {o c s r : Str} (ho : o ≠ [])
    (h : scriptMatchAt o c s = some r) : r.length < s.length := by
  unfold scriptMatchAt at h
  split at h
  · exact absurd h (by simp)
  next r1 h1 =>
    split at h
    · exact absurd h (by simp)
    next r2 h2 =>
      simp only [Option.map_eq_some'] at h
      obtain ⟨⟨m, r'⟩, hl, h3⟩ := h
      cases h3
      exact lt_of_le_of_lt (le_trans (lazyUntilAllLen hl) (le_of_lt (tagRest_length h2)))
        (ciMatch_length_lt ho h1)
where lazyUntilAllLen := @lazyUntilAll_length

/-- Global replacement of `<x[^>]*>[\s\S]*?<\/x>` matches by the empty string
(used with `x = script` and `x = style`, flag `gi`).  Structural recursion on
a fuel argument so that the kernel can evaluate it; by
`scriptMatchAt_length`, every step consumes at least one character, so fuel
equal to the string length (see `stripBlocks`) never runs out. -/
def stripBlocksF (openTag closeTag : Str) : Nat → Str → Str
  | 0, s => s
  | _ + 1, [] => []
  | fuel + 1, c :: rest =>
    match scriptMatchAt openTag closeTag (c :: rest) with
    | some r => stripBlocksF openTag closeTag fuel r
    | none => c :: stripBlocksF openTag closeTag fuel rest

def stripBlocks (openTag closeTag : Str) (s : Str) : Str :=
  stripBlocksF openTag closeTag s.length s

/-- Global replacement of `<[^>]+>` matches by `repl` (a single character in
`getText`, nothing in `getElemsRegex`); fuel as in `stripBlocksF`. -/
def replTagsF (repl : Str) : Nat → Str → Str
  | 0, s => s
  | _ + 1, [] => []
  | fuel + 1, c :: rest =>
    if c = '<' then
      match tagMatch rest with
      | some r => repl ++ replTagsF repl fuel r
      | none => c :: replTagsF repl fuel rest
    else c :: replTagsF repl fuel rest

def replTags (repl : Str) (s : Str) : Str := replTagsF repl s.length s

/-- Global replacement of `\s+` runs by a single space; fuel as in
`stripBlocksF`. -/
def collapseWsF : Nat → Str → Str
  | 0, s => s
  | _ + 1, [] => []
  | fuel + 1, c :: rest =>
    if JsStr.isWs c then ' ' :: collapseWsF fuel (rest.dropWhile JsStr.isWs)
    else c :: collapseWsF fuel rest

def collapseWs (s : Str) : Str := collapseWsF s.length s

/-- Attempted match of `<title[^>]*>(.*?)<\/title>` (flag `i`) at the current
position, returning the capture group. -/
def titleAt (s : Str) : Option Str :=
  match ciMatch "<title".toList s with
  | none => none
  | some r1 =>
    match tagRest r1 with
    | none => none
    | some r2 => (lazyUntil "</title>".toList r2).map (·.1)

/-- First (leftmost) match of the title regex over the whole string. -/
def titleSearch : Str → Option Str
  | [] => titleAt []
  | c :: rest =>
    match titleAt (c :: rest) with
    | some cap => some cap
    | none => titleSearch rest

/-- Attempted match of `<t[^>]*>.*?<\/t>` (flags `gi`) at the current
position, returning the full matched substring and the remainder.  Used for
`t = button` and `t = a`. -/
def pairMatchAt (openTag closeTag : Str) (s : Str) : Option (Str × Str) :=
  match ciMatch openTag s with
  | none => none
  | some r1 =>
    let pre := r1.takeWhile (· ≠ '>')
    match tagRest r1 with
    | none => none
    | some r2 =>
      (lazyUntil closeTag r2).map
        (fun p => (openTag ++ pre ++ ['>'] ++ p.1 ++ closeTag, p.2))

theorem pairMatchAt_length {o c s : Str} {m r : Str} (ho : o ≠ [])
    (h : pairMatchAt o c s = some (m, r)) : r.length < s.length := by
  unfold pairMatchAt at h
  split at h
  · exact absurd h (by simp)
  next r1 h1 =>
    split at h
    · exact absurd h (by simp)
    next r2 h2 =>
      simp only [Option.map_eq_some'] at h
      obtain ⟨⟨mid, r'⟩, hl, h3⟩ := h
      cases h3
      exact lt_of_le_of_lt (le_trans (lazyUntil_length hl) (le_of_lt (tagRest_length h2)))
        (ciMatch_length_lt ho h1)

/-- All matches of `<t[^>]*>.*?<\/t>` (flags `gi`): `String.prototype.match`
with the `g` flag, collecting matched substrings left to right; fuel as in
`stripBlocksF` (justified by `pairMatchAt_length`). -/
def pairMatchesF (openTag closeTag : Str) : Nat → Str → List Str
  | 0, _ => []
  | _ + 1, [] => []
  | fuel + 1, c :: rest =>
    match pairMatchAt openTag closeTag (c :: rest) with
    | some (m, r) => m :: pairMatchesF openTag closeTag fuel r
    | none => pairMatchesF openTag closeTag fuel rest

def pairMatches (openTag closeTag : Str) (s : Str) : List Str :=
  pairMatchesF openTag closeTag s.length s

/-- Attempted match of `<input[^>]*>` (flags `gi`) at the current position. -/
def inputMatchAt (s : Str) : Option (Str × Str) :=
  match ciMatch "<input".toList s with
  | none => none
  | some r1 =>
    let pre := r1.takeWhile (· ≠ '>')
    (tagRest r1).map (fun r2 => ("<input".toList ++ pre ++ ['>'], r2))

theorem inputMatchAt_length {s m r : Str} (h : inputMatchAt s = some (m, r)) :
    r.length < s.length := by
  unfold inputMatchAt at h
  split at h
  · exact absurd h (by simp)
  next r1 h1 =>
    simp only [Option.map_eq_some'] at h
    obtain ⟨r2, h2, h3⟩ := h
    cases h3
    exact Nat.lt_trans (tagRest_length h2) (ciMatch_length_lt (by simp) h1)

/-- All matches of `<input[^>]*>` (flags `gi`); fuel as in `stripBlocksF`
(justified by `inputMatchAt_length`). -/
def inputMatchesF : Nat → Str → List Str
  | 0, _ => []
  | _ + 1, [] => []
  | fuel + 1, c :: rest =>
    match inputMatchAt (c :: rest) with
    | some (m, r) => m :: inputMatchesF fuel r
    | none => inputMatchesF fuel rest

def inputMatches (s : Str) : List Str := inputMatchesF s.length s

/-- First match of `placeholder=["']([^"']*)/` (no flags, case-sensitive),
returning the capture group. -/
def placeholderAt (s : Str) : Option Str :=
  match ciMatchCs "placeholder=".toList s with
  | none => none
  | some (q :: r1) =>
    if q = '"' ∨ q = '\'' then
      some (r1.takeWhile (fun c => ¬ (c = '"' ∨ c = '\'')))
    else none
  | some [] => none
where
  /-- case-sensitive literal match returning the remainder. -/
  ciMatchCs : Str → Str → Option Str
    | [], s => some s
    | _ :: _, [] => none
    | p :: ps, c :: cs => if p = c then ciMatchCs ps cs else none

def placeholderSearch : Str → Option Str
  | [] => placeholderAt []
  | c :: rest =>
    match placeholderAt (c :: rest) with
    | some cap => some cap
    | none => placeholderSearch rest

end Rx

/-- The apostrophe character (U+0027). -/
def apos : Char := Char.ofNat 39

namespace Tinyshot

/-- `Tinyshot.getTitle`: first match of `/<title[^>]*>(.*?)<\/title>/i`,
trimmed, with fallback `"Page"` (an empty trimmed capture is falsy and also
falls back). -/
def getTitle (html : Str) : Str :=
  match Rx.titleSearch html with
  | some cap => let t := JsStr.jsTrim cap; if t = [] then "Page".toList else t
  | none => "Page".toList

/-- `Tinyshot.getText`: strip script blocks, style blocks, then all tags
(each tag replaced by a space), collapse whitespace runs, trim. -/
def getText (html : Str) : Str :=
  let s1 := Rx.stripBlocks "<script".toList "</script>".toList html
  let s2 := Rx.stripBlocks "<style".toList "</style>".toList s1
  JsStr.jsTrim (Rx.collapseWs (Rx.replTags [' '] s2))

/-- The test of `meaninglessIdPattern = /^(auto|gen|temp|[a-f0-9]{8,}|\d+)$/i`. -/
def meaninglessIdTest (id : Str) : Bool :=
  let l := JsStr.lowerStr id
  l == "auto".toList || l == "gen".toList || l == "temp".toList ||
  (decide (8 ≤ id.length) && l.all (fun c => c.isDigit || (97 ≤ c.toNat && c.toNat ≤ 102))) ||
  (decide (1 ≤ id.length) && id.all (·.isDigit))

/-- `Tinyshot.isMeaningfulId`. -/
def isMeaningfulId (id : Str) : Bool :=
  !meaninglessIdTest id && decide (id.length < 30) && decide (2 < id.length)

/-- The test of `meaningfulClassPattern` (anchored alternation of semantic
words, flag `i`). -/
def meaningfulClassTest (c : Str) : Bool :=
  (["btn", "button", "link", "nav", "menu", "form", "input", "search", "login",
    "header", "footer", "main", "primary", "secondary", "submit", "cancel",
    "close", "back", "next", "prev", "home", "user", "account", "profile",
    "settings", "logout", "signin", "signup"].map String.toList).any
    (fun w => JsStr.lowerStr c == w)

/-- The test of `meaninglessClassPattern` (anchored, so the dash-ending
alternatives only match those literal strings, flag `i`). -/
def meaninglessClassTest (c : Str) : Bool :=
  let l := JsStr.lowerStr c
  ((["col-", "row-", "d-", "m-", "mt-", "mb-", "ml-", "mr-", "p-", "pt-",
     "pb-", "pl-", "pr-", "text-", "bg-", "border-", "w-", "h-", "flex",
     "grid", "absolute", "relative", "fixed", "static"].map String.toList).any
    (fun w => l == w)) ||
  (decide (6 ≤ l.length) && l.all (fun ch => ch.isDigit || (97 ≤ ch.toNat && ch.toNat ≤ 102)))

/-- `Tinyshot.isMeaningfulClass`. -/
def isMeaningfulClass (c : Str) : Bool :=
  meaningfulClassTest c && !meaninglessClassTest c

/-- Landmark tags checked by `getParentContext`. -/
def landmarkTags : List Str :=
  ["nav", "form", "header", "footer", "main", "aside"].map String.toList

/-- `Tinyshot.getParentContext`: walk up to 3 ancestor levels, returning on
the first landmark tag, meaningful id, or meaningful class. -/
def getParentContextAux : List DNode → Nat → Str
  | [], _ => []
  | p :: rest, depth =>
    if depth < 3 then
      if landmarkTags.contains p.tag then p.tag
      else if p.idAttr ≠ [] ∧ isMeaningfulId p.idAttr then '#' :: p.idAttr
      else
        match p.classList.find? (fun c => isMeaningfulClass c) with
        | some c => '.' :: c
        | none => getParentContextAux rest (depth + 1)
    else []

def getParentContext (e : LocE) : Str := getParentContextAux e.ancestors 0

/-- Containers and section-class substrings checked by `getElementContext`. -/
def contextTags : List Str :=
  ["nav", "header", "footer", "main", "aside", "form"].map String.toList

def sectionClasses : List Str :=
  ["menu", "sidebar", "content", "login", "search"].map String.toList

/-- `Tinyshot.getElementContext`: walk up to 2 ancestor levels, `unshift`ing
the container tag and then a matching section class per level. -/
def getElementContextAux : List DNode → Nat → List Str → List Str
  | [], _, acc => acc
  | p :: rest, depth, acc =>
    if depth < 2 then
      let acc1 := if contextTags.contains p.tag then p.tag :: acc else acc
      let acc2 :=
        match p.classList.find?
            (fun c => sectionClasses.any (fun sc => JsStr.substrOf sc c)) with
        | some c =>
          (c.map (fun ch => if ch = '-' ∨ ch = '_' then ' ' else ch)) :: acc1
        | none => acc1
      getElementContextAux rest (depth + 1) acc2
    else acc

def getElementContext (e : LocE) : Str :=
  JsStr.joinSep " > ".toList (getElementContextAux e.ancestors 0 [])

/-- `Tinyshot.getElementCacheKey`: `` `${tag}-${id}-${classes}-${type}` ``. -/
def getElementCacheKey (e : LocE) : Str :=
  e.node.tag ++ "-".toList ++ e.node.idAttr ++ "-".toList ++
  e.node.classNameAttr ++ "-".toList ++ ((e.node.getAttr "type".toList).getD [])

/-- The computation performed by `Tinyshot.generateMeaningfulSelector`,
without the selector-cache lookup/store wrapped around it. -/
def generateMeaningfulSelectorUncached (e : LocE) : Str :=
  let tag := e.node.tag
  let id := e.node.idAttr
  if id ≠ [] ∧ isMeaningfulId id then '#' :: id
  else
    let meaningfulClasses := e.node.classList.filter isMeaningfulClass
    let clsPart : Str :=
      if meaningfulClasses ≠ [] then
        '.' :: JsStr.joinSep ".".toList (meaningfulClasses.take 2)
      else []
    let typePart : Str :=
      if tag = "input".toList then
        match e.node.getAttr "type".toList with
        | some t => if t ≠ [] then "[type=\"".toList ++ t ++ "\"]".toList else []
        | none => []
      else []
    let body := tag ++ clsPart ++ typePart
    let ctx := getParentContext e
    if ctx ≠ [] then ctx ++ " ".toList ++ body else body

/-- `Tinyshot.generateMeaningfulSelector` with its cache (both the `#id`
branch and the general branch store the computed result under the element's
cache key, so the cached function is lookup-or-compute-and-store). -/
def generateMeaningfulSelector (e : LocE) (st : St) : Str × St :=
  let cacheKey := getElementCacheKey e
  match mapGet st.selCache cacheKey with
  | some v => (v, st)
  | none =>
    let result := generateMeaningfulSelectorUncached e
    (result, { st with selCache := mapSet st.selCache cacheKey result })

/-- `Tinyshot.isMeaningfulElement`. -/
def isMeaningfulElement (e : LocE) : Bool :=
  let tag := e.node.tag
  let text := JsStr.jsTrim e.node.textContent
  if text = [] ∧ tag ≠ "input".toList then false
  else if 100 < text.length then false
  else true

/-- Class substrings treated as hiding an element. -/
def hiddenPatterns : List Str :=
  ["hidden", "invisible", "d-none", "sr-only", "visually-hidden"].map String.toList

/-- The per-element checks of `Tinyshot.isVisible` (hidden attribute, inline
style, hidden-class substrings). -/
def selfVisible (n : DNode) : Bool :=
  if n.hasAttr "hidden".toList then false
  else
    let style := (n.getAttr "style".toList).getD []
    if JsStr.substrOf "display:none".toList style ||
       JsStr.substrOf "display: none".toList style then false
    else if JsStr.substrOf "visibility:hidden".toList style ||
            JsStr.substrOf "visibility: hidden".toList style then false
    else if hiddenPatterns.any (fun p => JsStr.substrOf p n.classNameAttr) then false
    else true

/-- `Tinyshot.isVisible`: the element's own checks, then recursion into the
parent while it is neither `document.body` nor `document.documentElement`
(identity with those two singletons is modelled by their tag names, unique in
a JSDOM document). -/
def isVisibleAux : DNode → List DNode → Bool
  | n, [] => selfVisible n
  | n, p :: rest =>
    selfVisible n &&
    (if p.tag = "body".toList ∨ p.tag = "html".toList then true
     else isVisibleAux p rest)

def isVisible (e : LocE) : Bool := isVisibleAux e.node e.ancestors

/-- `Tinyshot.getOwnText`: concatenated direct text-node content. -/
def getOwnText (n : DNode) : Str :=
  (n.childNodes.filterMap
    (fun c => match c with | .text s => some s | .elem _ _ _ => none)).flatten

/-- `Tinyshot.hasMeaningfulAttributes`: some attribute other than
`class`/`style` starts with one of the meaningful names. -/
def hasMeaningfulAttributes (n : DNode) : Bool :=
  let meaningfulAttrs := ["id", "data-", "aria-", "role", "onclick", "onchange"].map String.toList
  n.attrs.any (fun a =>
    if a.1 = "class".toList ∨ a.1 = "style".toList then false
    else meaningfulAttrs.any (fun m => JsStr.startsWith m a.1))

/-- `Tinyshot.isUselessWrapper`. -/
def isUselessWrapper (n : DNode) : Bool :=
  if ¬ (n.tag = "div".toList ∨ n.tag = "span".toList) then false
  else if JsStr.jsTrim (getOwnText n) ≠ [] then false
  else if n.childElemsIdx.length ≠ 1 then false
  else if hasMeaningfulAttributes n then false
  else true

/-- `Tinyshot.extractMeaningfulChild`: the single element child (located one
level deeper), or the wrapper itself. -/
def extractMeaningfulChild (e : LocE) : LocE :=
  match e.node.childElemsIdx with
  | [(i, c)] => ⟨e.path ++ [i], c, e.node :: e.ancestors⟩
  | _ => e

/-- The `while (isUselessWrapper && depth < 5)` loop of
`unwrapUselessWrappers`; the fuel is the number of remaining iterations. -/
def unwrapLoop : Nat → LocE → LocE
  | 0, e => e
  | fuel + 1, e =>
    if isUselessWrapper e.node then unwrapLoop fuel (extractMeaningfulChild e)
    else e

/-- One element's unwrapping (at most 5 levels). -/
def unwrapElement (e : LocE) : LocE := unwrapLoop 5 e

/-- `unwrapped.includes(element)`: object identity, modelled by document
paths (within a single document, equal paths mean the same node). -/
def includesElem (l : List LocE) (e : LocE) : Bool :=
  l.any (fun x => x.path == e.path)

/-- One iteration of the `unwrapUselessWrappers` loop: unwrap the element,
then push it unless an identical element was already pushed. -/
def pushUnwrapped (acc : List LocE) (el : LocE) : List LocE :=
  let u := unwrapElement el
  if includesElem acc u then acc else acc ++ [u]

/-- `Tinyshot.unwrapUselessWrappers`. -/
def unwrapUselessWrappers (elements : List LocE) : List LocE :=
  elements.foldl pushUnwrapped []

/-- The fixed selector list of `findMeaningfulElements`, in scan order, each
entry as a predicate on a located element (CSS semantics of the concrete
selectors used; attribute-value matching for `type` is ASCII
case-insensitive in HTML documents, for `role` case-sensitive). -/
def selectorList : List (LocE → Bool) :=
  [fun e => e.node.tag == "button".toList,
   fun e => e.node.tag == "a".toList && e.node.hasAttr "href".toList,
   fun e => e.node.tag == "input".toList &&
     (match e.node.getAttr "type".toList with
      | some t => JsStr.lowerStr t != "hidden".toList
      | none => false),
   fun e => e.node.tag == "select".toList,
   fun e => e.node.tag == "textarea".toList,
   fun e => e.node.getAttr "role".toList == some "button".toList,
   fun e => e.node.getAttr "role".toList == some "link".toList,
   fun e => e.node.getAttr "role".toList == some "menuitem".toList,
   fun e => e.node.hasAttr "onclick".toList,
   fun e => e.node.tag == "a".toList && e.ancestors.any (fun p => p.tag == "nav".toList),
   fun e => e.node.tag == "a".toList &&
     e.ancestors.any (fun p => p.classList.contains "menu".toList),
   fun e => e.node.classList.contains "nav-link".toList]

/-- `Tinyshot.findMeaningfulElements`: for each selector in order, every
matching element in document order that is meaningful and visible; then
wrapper unwrapping (which also deduplicates). -/
def findMeaningfulElements (doc : DNode) : List LocE :=
  let meaningful := selectorList.flatMap
    (fun sel => (allElems doc).filter
      (fun e => sel e && isMeaningfulElement e && isVisible e))
  unwrapUselessWrappers meaningful

/-- JS `a || b` on an optional attribute value (absent and empty are falsy). -/
def orAttr (a : Option Str) (b : Str) : Str :=
  match a with
  | some s => if s ≠ [] then s else b
  | none => b

/-- The `switch` body of `Tinyshot.elemToElem`, with the selector passed in
(the `default` arm is unreachable for the closed `Elem.type` union but is the
`button` mapping in the source). -/
def elemToElemSel (e : LocE) (sel : Str) : Elem :=
  let tag := e.node.tag
  let text := JsStr.jsTrim e.node.textContent
  let context := getElementContext e
  if tag = "button".toList then
    ⟨.btn, text.take 30, sel,
     some (if context ≠ [] then context else "page button".toList)⟩
  else if tag = "a".toList then
    ⟨.link, text.take 30, sel,
     some (if context ≠ [] then context else "page link".toList)⟩
  else if tag = "input".toList then
    let placeholder := orAttr (e.node.getAttr "placeholder".toList)
      (orAttr (e.node.getAttr "name".toList) "Input".toList)
    let inputType := orAttr (e.node.getAttr "type".toList) "text".toList
    ⟨.input, placeholder, sel,
     some (if context ≠ [] then context else inputType ++ " input".toList)⟩
  else if tag = "select".toList then
    ⟨.select, (if text.take 30 ≠ [] then text.take 30 else "Select".toList), sel,
     some (if context ≠ [] then context else "dropdown select".toList)⟩
  else if tag = "textarea".toList then
    ⟨.input, orAttr (e.node.getAttr "placeholder".toList) "Text area".toList, sel,
     some (if context ≠ [] then context else "text area".toList)⟩
  else
    ⟨.btn, text.take 30, sel,
     some (if context ≠ [] then context else tag ++ " element".toList)⟩

/-- `Tinyshot.elemToElem` (selector computed through the selector cache). -/
def elemToElem (e : LocE) (st : St) : Elem × St :=
  let (sel, st1) := generateMeaningfulSelector e st
  (elemToElemSel e sel, st1)

/-- `Tinyshot.elemToElem` with the selector cache disabled. -/
def elemToElemNoCache (e : LocE) : Elem :=
  elemToElemSel e (generateMeaningfulSelectorUncached e)

/-- `Tinyshot.getElemsRegex`: buttons, then links, then inputs, scanned with
the three regexes on the raw markup. -/
def getElemsRegex (html : Str) : List Elem :=
  let btns := (Rx.pairMatches "<button".toList "</button>".toList html).filterMap
    (fun m =>
      let t := JsStr.jsTrim (Rx.replTags [] m)
      if t ≠ [] then some ⟨.btn, t.take 30, "button".toList, none⟩ else none)
  let links := (Rx.pairMatches "<a".toList "</a>".toList html).filterMap
    (fun m =>
      let t := JsStr.jsTrim (Rx.replTags [] m)
      if t ≠ [] then some ⟨.link, t.take 30, "a".toList, none⟩ else none)
  let inputs := (Rx.inputMatches html).map
    (fun m => ⟨.input, orAttr (Rx.placeholderSearch m) "Input".toList, "input".toList, none⟩)
  btns ++ links ++ inputs

/-- JS `ToInt32` (the effect of `x & x` / `<<` on a number). -/
def toInt32 (x : Int) : Int := (x + 2 ^ 31) % 2 ^ 32 - 2 ^ 31

/-- One step of the hash loop: `hash = ((hash << 5) - hash) + char` followed
by `hash = hash & hash`. -/
def hashStep (h : Int) (c : Char) : Int :=
  toInt32 (toInt32 (h * 32) - h + c.toNat)

/-- `Tinyshot.generateHtmlHash` over the first 1000 characters.  The source
returns `hash.toString(36)`, an injective rendering of the 32-bit integer, so
the key is modelled by the integer itself. -/
def generateHtmlHash (html : Str) : Int :=
  (html.take 1000).foldl hashStep 0

/-- `Tinyshot.cleanupCaches`: when the TTL (5 minutes) has elapsed, evict the
oldest half of an over-capacity dom cache, clear the selector cache wholesale
and reset the sweep clock. -/
def cleanupCaches (now : Nat) (st : St) : St :=
  if 300000 < now - st.lastCleanup then
    let dc :=
      if 100 < st.domCache.length then st.domCache.drop (st.domCache.length / 2)
      else st.domCache
    ⟨dc, [], now⟩
  else st

/-- `meaningfulElems.map(elem => this.elemToElem(elem))` with the selector
cache threaded left to right. -/
def elemToElemList : List LocE → St → List Elem × St
  | [], st => ([], st)
  | e :: t, st =>
    let r := elemToElem e st
    let rs := elemToElemList t r.2
    (r.1 :: rs.1, rs.2)

/-- `Tinyshot.getElemsDom`: consult the dom cache by content hash, else parse
(a `none` parse models the JSDOM constructor throwing, caught and turned into
zero elements), cache the document if there is room, then convert and cap at
50. -/
def getElemsDom (parse : Str → Option DNode) (html : Str) (st : St) :
    List Elem × St :=
  let cacheKey := generateHtmlHash html
  match mapGet st.domCache cacheKey with
  | some document =>
    let r := elemToElemList (findMeaningfulElements document) st
    (r.1.take 50, r.2)
  | none =>
    match parse html with
    | none => ([], st)
    | some document =>
      let st1 :=
        if st.domCache.length < 100 then
          { st with domCache := mapSet st.domCache cacheKey document }
        else st
      let r := elemToElemList (findMeaningfulElements document) st1
      (r.1.take 50, r.2)

/-- `Tinyshot.getElems`: DOM strategy first; regex fallback only when it
yields zero elements. -/
def getElems (parse : Str → Option DNode) (html : Str) (st : St) :
    List Elem × St :=
  let r := getElemsDom parse html st
  if 0 < r.1.length then r
  else (getElemsRegex html, r.2)

/-- `Tinyshot.tiny`: cache sweep, size guard (`InputTooLarge` modelled as
`Except.error ()`), then title, truncated text and truncated elements. -/
def tiny (parse : Str → Option DNode) (now : Nat) (html : Str)
    (opts : CompOpts) (st : St) : Except Unit CompSnapshot × St :=
  let st0 := cleanupCaches now st
  if 5000000 < html.length then (.error (), st0)
  else
    let title := getTitle html
    let text := (getText html).take opts.maxText
    let r := getElems parse html st0
    (.ok ⟨title, text, r.1.take opts.maxElems⟩, r.2)

/-- `Tinyshot.getElemsDom` with both caches disabled (the cache-free
reference implementation of §4.3 of the specification). -/
def getElemsDomNoCache (parse : Str → Option DNode) (html : Str) : List Elem :=
  match parse html with
  | none => []
  | some document =>
    ((findMeaningfulElements document).map elemToElemNoCache).take 50

def getElemsNoCache (parse : Str → Option DNode) (html : Str) : List Elem :=
  let domResult := getElemsDomNoCache parse html
  if 0 < domResult.length then domResult else getElemsRegex html

/-- Cache-free `tiny`. -/
def tinyNoCache (parse : Str → Option DNode) (html : Str) (opts : CompOpts) :
    Except Unit CompSnapshot :=
  if 5000000 < html.length then .error ()
  else .ok ⟨getTitle html, (getText html).take opts.maxText,
            (getElemsNoCache parse html).take opts.maxElems⟩

/-- Arguments of one `compress` call (its `Date.now()` instant, input and
options). -/
structure CallArgs where
  now : Nat
  html : Str
  opts : CompOpts

/-- A sequence of `tiny` calls against the shared static caches. -/
def runCalls (parse : Str → Option DNode) :
    List CallArgs → St → List (Except Unit CompSnapshot) × St
  | [], st => ([], st)
  | c :: t, st =>
    let r := tiny parse c.now c.html c.opts st
    let rs := runCalls parse t r.2
    (r.1 :: rs.1, rs.2)

end Tinyshot

namespace Tinyshot

/-- Global single-character replacement (one `String.prototype.replace` pass
with a one-character pattern). -/
def replaceChar (c : Char) (repl : Str) (s : Str) : Str :=
  s.foldr (fun ch acc => (if ch = c then repl else [ch]) ++ acc) []

/-- `Tinyshot.escapeHtml`: the five sequential global replaces. -/
def escapeHtml (text : Str) : Str :=
  replaceChar apos "&#x27;".toList
    (replaceChar '"' "&quot;".toList
      (replaceChar '>' "&gt;".toList
        (replaceChar '<' "&lt;".toList
          (replaceChar '&' "&amp;".toList text))))

/-- `Tinyshot.elemToHtml`: type-specific tag with the selector embedded
verbatim in `sel="..."` and the text HTML-escaped. -/
def elemToHtml (elem : Elem) (indent : Str) : Str :=
  match elem.type with
  | .btn =>
    indent ++ "<button sel=\"".toList ++ elem.sel ++ "\">".toList ++
    escapeHtml elem.text ++ "</button>".toList
  | .link =>
    indent ++ "<a href=\"#\" sel=\"".toList ++ elem.sel ++ "\">".toList ++
    escapeHtml elem.text ++ "</a>".toList
  | .input =>
    indent ++ "<input type=\"text\" sel=\"".toList ++ elem.sel ++
    "\" placeholder=\"".toList ++ escapeHtml elem.text ++ "\">".toList
  | .select =>
    indent ++ "<select sel=\"".toList ++ elem.sel ++ "\"><option>".toList ++
    escapeHtml elem.text ++ "</option></select>".toList

/-- `Map`-backed grouping of `groupElementsByContext`: append to an existing
group or create a new one at the end. -/
def addToGroup : List (Str × List Elem) → Str → Elem → List (Str × List Elem)
  | [], k, e => [(k, [e])]
  | (k', l) :: t, k, e =>
    if k' = k then (k', l ++ [e]) :: t else (k', l) :: addToGroup t k e

/-- `elem.context || 'main'`: the bucket an element is grouped under (an
absent or empty context is falsy and falls back to `"main"`). -/
def effContext (e : Elem) : Str :=
  match e.context with
  | some c => if c ≠ [] then c else "main".toList
  | none => "main".toList

/-- `Tinyshot.groupElementsByContext`. -/
def groupElementsByContext (elements : List Elem) : List (Str × List Elem) :=
  elements.foldl (fun g e => addToGroup g (effContext e) e) []

def getGroup (g : List (Str × List Elem)) (k : Str) : List Elem :=
  (mapGet g k).getD []

def hasGroup (g : List (Str × List Elem)) (k : Str) : Bool :=
  (mapGet g k).isSome

/-- `Tinyshot.generateNavSection`. -/
def generateNavSection (elements : List Elem) : Str :=
  "  <header>\n    <nav>\n".toList ++
  JsStr.joinSep "\n".toList (elements.map (fun e => elemToHtml e "      ".toList)) ++
  "\n    </nav>\n  </header>".toList

/-- `Tinyshot.generateHeaderSection`. -/
def generateHeaderSection (elements : List Elem) : Str :=
  "  <header>\n".toList ++
  JsStr.joinSep "\n".toList (elements.map (fun e => elemToHtml e "    ".toList)) ++
  "\n  </header>".toList

/-- `Tinyshot.generateFormSection`. -/
def generateFormSection (elements : List Elem) : Str :=
  "    <form>\n".toList ++
  JsStr.joinSep "\n".toList (elements.map (fun e => elemToHtml e "      ".toList)) ++
  "\n    </form>".toList

/-- Attempted match of `\n\s*\n` at the current position: the greedy `\s*`
with the final `\n` requirement consumes up to the last newline of the
whitespace run; returns the remainder after the match. -/
def paraMatchAt : Str → Option Str
  | [] => none
  | c :: rest =>
    if c = '\n' then
      let run := rest.takeWhile (fun ch => JsStr.isWs ch)
      match ((run.enum.filter (fun p => p.2 = '\n')).map (·.1)).getLast? with
      | some j => some (rest.drop (j + 1))
      | none => none
    else none

theorem paraMatchAt_length {s r : Str} (h : paraMatchAt s = some r) :
    r.length < s.length := by
  cases s with
  | nil => simp [paraMatchAt] at h
  | cons c rest =>
    simp only [paraMatchAt] at h
    split at h
    · split at h
      · cases h
        simpa using Nat.lt_succ_of_le (by simpa using List.length_drop_le _ rest)
      · exact absurd h (by simp)
    · exact absurd h (by simp)

/-- `pageText.split(/\n\s*\n/)`; fuel as in `stripBlocksF` (justified by
`paraMatchAt_length`). -/
def splitParasF : Nat → Str → Str → List Str
  | 0, _, acc => [acc.reverse]
  | _ + 1, [], acc => [acc.reverse]
  | fuel + 1, c :: rest, acc =>
    match paraMatchAt (c :: rest) with
    | some r => acc.reverse :: splitParasF fuel r []
    | none => splitParasF fuel rest (c :: acc)

def splitParas (s : Str) : List Str := splitParasF s.length s []

/-- `Tinyshot.generateContentSection`. -/
def generateContentSection (pageText : Str) (elements : List Elem) : Str :=
  let sections : List Str :=
    (if JsStr.jsTrim pageText ≠ [] then
      ((splitParas pageText).filter (fun p => JsStr.jsTrim p ≠ [])).map
        (fun p => "      <p>".toList ++ escapeHtml (JsStr.jsTrim p) ++ "</p>".toList)
     else []) ++
    (if elements ≠ [] then
      ["      <div class=\"actions\">".toList] ++
      elements.map (fun e => elemToHtml e "        ".toList) ++
      ["      </div>".toList]
     else [])
  "    <section>\n".toList ++ JsStr.joinSep "\n".toList sections ++
  "\n    </section>".toList

/-- Contexts routed into the `<form>` block. -/
def formContexts : List Str :=
  ["form", "form > login", "login form", "search form"].map String.toList

/-- `Tinyshot.generateSemanticBody`. -/
def generateSemanticBody (groups : List (Str × List Elem)) (pageText : Str) :
    Str :=
  let navPart : List Str :=
    if hasGroup groups "nav".toList ∨ hasGroup groups "nav > menu".toList then
      let navElems := getGroup groups "nav".toList ++ getGroup groups "nav > menu".toList
      if navElems ≠ [] then [generateNavSection navElems] else []
    else []
  let headerPart : List Str :=
    if hasGroup groups "header".toList then
      [generateHeaderSection (getGroup groups "header".toList)]
    else []
  let formElems := formContexts.foldr (fun ctx acc => getGroup groups ctx ++ acc) []
  let formPart : List Str :=
    if formElems ≠ [] then [generateFormSection formElems] else []
  let excluded : List Str := ["nav".toList, "nav > menu".toList, "header".toList] ++ formContexts
  let generalElems :=
    (groups.filter (fun p => ¬ excluded.contains p.1)).foldr (fun p acc => p.2 ++ acc) []
  let contentPart : List Str :=
    if JsStr.jsTrim pageText ≠ [] ∨ generalElems ≠ [] then
      [generateContentSection pageText generalElems]
    else []
  let mainSections := formPart ++ contentPart
  let mainPart : List Str :=
    if mainSections ≠ [] then
      ["  <main>\n".toList ++ JsStr.joinSep "\n".toList mainSections ++ "\n  </main>".toList]
    else []
  JsStr.joinSep "\n".toList (navPart ++ headerPart ++ mainPart)

/-- `Tinyshot.restore`. -/
def restore (snapshot : CompSnapshot) : Str :=
  let elementsByContext := groupElementsByContext snapshot.elems
  "<!DOCTYPE html>\n<html>\n<head>\n  <title>".toList ++
  escapeHtml snapshot.title ++
  "</title>\n</head>\n<body>\n".toList ++
  generateSemanticBody elementsByContext snapshot.text ++
  "\n</body>\n</html>".toList

end Tinyshot

/-! ### Concrete documents and inputs used by the scenario theorems -/

/-- The login-form scenario input of the specification (§8). -/
def loginHtml : Str :=
  "<html><head><title>Login</title></head><body><form><input type=\"text\" placeholder=\"Username\"><input type=\"password\" placeholder=\"Password\"><button>Sign In</button></form></body></html>".toList

/-- The DOM tree JSDOM produces for `loginHtml` (no inter-tag whitespace, so
no extra text nodes). -/
def loginDoc : DNode :=
  .elem "html".toList [] [
    .elem "head".toList [] [.elem "title".toList [] [.text "Login".toList]],
    .elem "body".toList [] [
      .elem "form".toList [] [
        .elem "input".toList
          [("type".toList, "text".toList), ("placeholder".toList, "Username".toList)] [],
        .elem "input".toList
          [("type".toList, "password".toList), ("placeholder".toList, "Password".toList)] [],
        .elem "button".toList [] [.text "Sign In".toList]]]]

/-- A parse function defined on the login scenario input. -/
def parseLogin : Str → Option DNode :=
  fun h => if h = loginHtml then some loginDoc else none

/-- The snapshot `tiny` actually produces on the login scenario. -/
def loginSnap : CompSnapshot :=
  ⟨"Login".toList, "Login Sign In".toList,
   [⟨.btn, "Sign In".toList, "form button".toList, some "form".toList⟩,
    ⟨.input, "Username".toList, "form input[type=\"text\"]".toList, some "form".toList⟩,
    ⟨.input, "Password".toList, "form input[type=\"password\"]".toList, some "form".toList⟩]⟩

/-- An input whose placeholder is 35 characters long. -/
def phHtml : Str :=
  "<input placeholder=\"".toList ++ List.replicate 35 'a' ++ "\">".toList

/-- The snapshot produced for `phHtml` on the regex fallback path. -/
def phSnap : CompSnapshot :=
  ⟨"Page".toList, [], [⟨.input, List.replicate 35 'a', "input".toList, none⟩]⟩

/-- 51 identical buttons (regex fallback exceeds 50 elements when
`maxElems` allows it). -/
def fiftyOneBtns : Str := (List.replicate 51 "<button>x</button>".toList).flatten

/-- Two inputs agreeing on their (whole) prefix hash but with different
button labels: the hash recurrence `h ↦ 31·h + c` sends both `Aa` and `BB`
to the same value. -/
def collA : Str := "<button>Aa</button>".toList

def collB : Str := "<button>BB</button>".toList

/-- JSDOM's tree for `collA`. -/
def collDocA : DNode :=
  .elem "html".toList [] [
    .elem "head".toList [] [],
    .elem "body".toList [] [.elem "button".toList [] [.text "Aa".toList]]]

/-- JSDOM's tree for `collB`. -/
def collDocB : DNode :=
  .elem "html".toList [] [
    .elem "head".toList [] [],
    .elem "body".toList [] [.elem "button".toList [] [.text "BB".toList]]]

/-- A parse function defined on the two colliding inputs. -/
def parseColl : Str → Option DNode :=
  fun h => if h = collA then some collDocA else if h = collB then some collDocB else none

/-- A `div` wrapper around a node. -/
def divWrap (n : DNode) : DNode := .elem "div".toList [] [n]

/-- A labelled button. -/
def goBtn : DNode := .elem "button".toList [] [.text "Go".toList]

/-- Six nested useless wrappers around a button: one unwrap pass stops at the
5-level bound with a wrapper still on top. -/
def deepWrapped : DNode :=
  divWrap (divWrap (divWrap (divWrap (divWrap (divWrap goBtn)))))

def deepWrappedLoc : LocE := ⟨[], deepWrapped, []⟩

/-- A button located under a `body`, used as a trivially unwrapped element. -/
def plainBtnLoc : LocE :=
  ⟨[1, 0], goBtn, [.elem "body".toList [] [goBtn], .elem "html".toList [] [.elem "body".toList [] [goBtn]]]⟩

/-- A 33-character id that embeds the text of the qualified selector: it
fails the meaningful-id length test, yet the synthesized selector is exactly
`#` followed by it. -/
def trickyId : Str := "mainxnavigationbar button.btn.nav".toList

def trickyBtn : DNode :=
  .elem "button".toList [("id".toList, trickyId), ("class".toList, "btn nav".toList)] []

def trickyParent : DNode :=
  .elem "div".toList [("id".toList, "mainxnavigationbar".toList)] [trickyBtn]

def trickyLoc : LocE := ⟨[0], trickyBtn, [trickyParent]⟩

/-- A button with a human-authored id. -/
def goodIdLoc : LocE :=
  ⟨[], .elem "button".toList [("id".toList, "loginxbtn".toList)] [], []⟩

/-- A button with a purely numeric (auto-generated-looking) id. -/
def numIdLoc : LocE :=
  ⟨[], .elem "button".toList [("id".toList, "123".toList)] [], []⟩

/-- A snapshot holding one form input whose selector carries a type
qualifier (and hence a double quote). -/
def quoteSnap : CompSnapshot :=
  ⟨"T&x".toList, "hello".toList,
   [⟨.input, "User".toList, "form input[type=\"text\"]".toList, some "form".toList⟩]⟩

/-- The located elements the DOM pass processes for a given input: none on a
parse failure, otherwise the meaningful elements of the parsed document. -/
def elemsOfParse (parse : Str → Option DNode) (html : Str) : List LocE :=
  match parse html with
  | none => []
  | some d => Tinyshot.findMeaningfulElements d

/-- Every entry of the document cache is the parse of some html from the
universe `H`, keyed by its hash. -/
def DomCacheFaithful (parse : Str → Option DNode) (H : List Str)
    (dc : List (Int × DNode)) : Prop :=
  ∀ p ∈ dc, ∃ h ∈ H, Tinyshot.generateHtmlHash h = p.1 ∧ parse h = some p.2

/-- Every entry of the selector cache is the uncached selector of some
element processed for some html from the universe `H`, keyed by its element
cache key. -/
def SelCacheFaithful (parse : Str → Option DNode) (H : List Str)
    (sc : List (Str × Str)) : Prop :=
  ∀ q ∈ sc, ∃ h ∈ H, ∃ e ∈ elemsOfParse parse h,
    Tinyshot.getElementCacheKey e = q.1 ∧
    Tinyshot.generateMeaningfulSelectorUncached e = q.2

/-! ### Helper lemmas -/

namespace JsStr

theorem startsWith_iff {p s : Str} : startsWith p s = true ↔ ∃ r, s = p ++ r := by
  induction p generalizing s with
  | nil => simp [startsWith]
  | cons a ps ih =>
    cases s with
    | nil => simp [startsWith]
    | cons c cs =>
      simp only [startsWith, Bool.and_eq_true, beq_iff_eq, ih]
      constructor
      · rintro ⟨rfl, r, rfl⟩; exact ⟨r, rfl⟩
      · rintro ⟨r, h⟩
        injection h with h1 h2
        exact ⟨h1.symm, r, h2⟩

theorem substrOf_iff {m s : Str} :
    substrOf m s = true ↔ ∃ pre post, s = pre ++ (m ++ post) := by
  induction s with
  | nil =>
    simp only [substrOf, startsWith_iff]
    constructor
    · rintro ⟨r, h⟩; exact ⟨[], r, h⟩
    · rintro ⟨pre, post, h⟩
      have h' := h.symm
      rw [List.append_eq_nil] at h'
      exact ⟨post, h'.2.symm⟩
  | cons c t ih =>
    simp only [substrOf, Bool.or_eq_true, startsWith_iff, ih]
    constructor
    · rintro (⟨r, h⟩ | ⟨pre, post, h⟩)
      · exact ⟨[], r, by simpa using h⟩
      · exact ⟨c :: pre, post, by rw [h]; rfl⟩
    · rintro ⟨pre, post, h⟩
      cases pre with
      | nil => exact Or.inl ⟨post, by simpa using h⟩
      | cons x xs =>
        injection h with h1 h2
        exact Or.inr ⟨xs, post, h2⟩

theorem substrOf_here (pre m post : Str) : substrOf m (pre ++ (m ++ post)) = true :=
  substrOf_iff.mpr ⟨pre, post, rfl⟩

theorem substrOf_refl (m : Str) : substrOf m m = true :=
  substrOf_iff.mpr ⟨[], [], by simp⟩

theorem substrOf_appendL {m s : Str} (a : Str) (h : substrOf m s = true) :
    substrOf m (a ++ s) = true := by
  obtain ⟨pre, post, rfl⟩ := substrOf_iff.mp h
  exact substrOf_iff.mpr ⟨a ++ pre, post, by simp⟩

theorem substrOf_appendR {m s : Str} (b : Str) (h : substrOf m s = true) :
    substrOf m (s ++ b) = true := by
  obtain ⟨pre, post, rfl⟩ := substrOf_iff.mp h
  exact substrOf_iff.mpr ⟨pre, post ++ b, by simp⟩

theorem substrOf_trans {a b c : Str} (h1 : substrOf a b = true)
    (h2 : substrOf b c = true) : substrOf a c = true := by
  obtain ⟨p1, q1, rfl⟩ := substrOf_iff.mp h1
  obtain ⟨p2, q2, rfl⟩ := substrOf_iff.mp h2
  exact substrOf_iff.mpr ⟨p2 ++ p1, q1 ++ q2, by simp⟩

theorem substrOf_joinSep {t x sep : Str} {parts : List Str} (hx : x ∈ parts)
    (h : substrOf t x = true) : substrOf t (joinSep sep parts) = true := by
  induction parts with
  | nil => cases hx
  | cons y ys ih =>
    cases ys with
    | nil =>
      rw [List.mem_singleton] at hx
      subst hx
      simpa [joinSep] using h
    | cons z zs =>
      rcases List.mem_cons.mp hx with rfl | hmem
      · exact substrOf_appendR _ (substrOf_appendR _ h)
      · exact substrOf_appendL _ (ih hmem)

end JsStr

namespace Tinyshot

/-- Value of `tiny` below the size guard. -/
theorem tiny_ok (parse : Str → Option DNode) (now : Nat) (html : Str)
    (opts : CompOpts) (st : St) (h : ¬ 5000000 < html.length) :
    tiny parse now html opts st =
      (.ok ⟨getTitle html, (getText html).take opts.maxText,
            (getElems parse html (cleanupCaches now st)).1.take opts.maxElems⟩,
       (getElems parse html (cleanupCaches now st)).2) := by
  unfold tiny
  rw [if_neg h]

/-- Value of `tiny` above the size guard. -/
theorem tiny_err (parse : Str → Option DNode) (now : Nat) (html : Str)
    (opts : CompOpts) (st : St) (h : 5000000 < html.length) :
    tiny parse now html opts st = (.error (), cleanupCaches now st) := by
  unfold tiny
  rw [if_pos h]

/-- `getElems` when the DOM pass found something. -/
theorem getElems_pos {parse : Str → Option DNode} {html : Str} {st : St}
    (h : (getElemsDom parse html st).1 ≠ []) :
    getElems parse html st = getElemsDom parse html st := by
  unfold getElems
  rcases hd : getElemsDom parse html st with ⟨d, st1⟩
  rw [hd] at h
  simp only at h
  simp [List.length_pos, h]

/-- `getElems` when the DOM pass found nothing. -/
theorem getElems_nil {parse : Str → Option DNode} {html : Str} {st : St}
    (h : (getElemsDom parse html st).1 = []) :
    getElems parse html st = (getElemsRegex html, (getElemsDom parse html st).2) := by
  unfold getElems
  rcases hd : getElemsDom parse html st with ⟨d, st1⟩
  rw [hd] at h
  simp only at h
  subst h
  simp

/-- The DOM pass never returns more than 50 elements. -/
theorem getElemsDom_le_50 (parse : Str → Option DNode) (html : Str) (st : St) :
    (getElemsDom parse html st).1.length ≤ 50 := by
  simp only [getElemsDom]
  rcases mapGet st.domCache (generateHtmlHash html) with _ | doc
  · rcases parse html with _ | doc
    · simp
    · rcases elemToElemList (findMeaningfulElements doc)
        (if st.domCache.length < 100 then
          { st with domCache := mapSet st.domCache (generateHtmlHash html) doc }
         else st) with ⟨es, st2⟩
      simpa using List.length_take_le 50 es
  · rcases elemToElemList (findMeaningfulElements doc) st with ⟨es, st1⟩
    simpa using List.length_take_le 50 es

/-- Elements of the regex pass carry one of the three bare tag selectors. -/
theorem getElemsRegex_sel {html : Str} {el : Elem} (h : el ∈ getElemsRegex html) :
    el.sel = "button".toList ∨ el.sel = "a".toList ∨ el.sel = "input".toList := by
  unfold getElemsRegex at h
  rcases List.mem_append.mp h with h1 | h2
  · rcases List.mem_append.mp h1 with hb | hl
    · obtain ⟨m, _, hm⟩ := List.mem_filterMap.mp hb
      dsimp only at hm
      split at hm
      · cases Option.some_inj.mp hm; exact Or.inl rfl
      · cases hm
    · obtain ⟨m, _, hm⟩ := List.mem_filterMap.mp hl
      dsimp only at hm
      split at hm
      · cases Option.some_inj.mp hm; exact Or.inr (Or.inl rfl)
      · cases hm
  · obtain ⟨m, _, hm⟩ := List.mem_map.mp h2
    cases hm
    exact Or.inr (Or.inr rfl)

end Tinyshot

/-! ### Claim theorems -/

/-- C1: for every HTML string of length at most 5,000,000 and options with
`maxText > 0` and `maxElems > 0`, `tiny` returns a snapshot with
`text.length ≤ maxText` and `elems.length ≤ maxElems` (for any parse
function, call instant and cache state). -/
theorem c1_output_bounds (parse : Str → Option DNode) (now : Nat) (html : Str)
    (opts : CompOpts) (st : St) (hlen : html.length ≤ 5000000)
    (_htext : 0 < opts.maxText) (_helems : 0 < opts.maxElems) :
    ∃ s st', Tinyshot.tiny parse now html opts st = (.ok s, st') ∧
      s.text.length ≤ opts.maxText ∧ s.elems.length ≤ opts.maxElems :=
  ⟨_, _, Tinyshot.tiny_ok parse now html opts st (by omega),
   List.length_take_le _ _, List.length_take_le _ _⟩

/-- C1 witness at a concrete input. -/
theorem c1_output_bounds_witness :
    ∃ s st', Tinyshot.tiny (fun _ => none) 0 "a".toList {} St.empty = (.ok s, st') ∧
      s.text.length ≤ ({} : CompOpts).maxText ∧
      s.elems.length ≤ ({} : CompOpts).maxElems :=
  c1_output_bounds (fun _ => none) 0 "a".toList {} St.empty (by decide) (by decide)
    (by decide)

/-- C2: `tiny` fails exactly on inputs longer than 5,000,000 characters; any
input within the bound yields a snapshot, and a DOM-parse failure (with no
cached document for the input's hash) degrades to the regex fallback rather
than an error. -/
theorem c2_size_guard (parse : Str → Option DNode) (now : Nat) (html : Str)
    (opts : CompOpts) (st : St) :
    ((Tinyshot.tiny parse now html opts st).1 = .error () ↔ 5000000 < html.length) ∧
    (html.length ≤ 5000000 → ∃ s, (Tinyshot.tiny parse now html opts st).1 = .ok s) ∧
    (mapGet (Tinyshot.cleanupCaches now st).domCache (Tinyshot.generateHtmlHash html) = none →
     parse html = none → html.length ≤ 5000000 →
     (Tinyshot.tiny parse now html opts st).1 =
       .ok ⟨Tinyshot.getTitle html, (Tinyshot.getText html).take opts.maxText,
            (Tinyshot.getElemsRegex html).take opts.maxElems⟩) := by
  refine ⟨⟨fun herr => ?_, fun hbig => ?_⟩, fun hsmall => ?_, fun hmap hparse hsmall => ?_⟩
  · by_contra hn
    rw [Tinyshot.tiny_ok parse now html opts st hn] at herr
    cases herr
  · rw [Tinyshot.tiny_err parse now html opts st hbig]
  · rw [Tinyshot.tiny_ok parse now html opts st (by omega)]
    exact ⟨_, rfl⟩
  · have hdom : Tinyshot.getElemsDom parse html (Tinyshot.cleanupCaches now st) =
        ([], Tinyshot.cleanupCaches now st) := by
      simp only [Tinyshot.getElemsDom]
      rw [hmap, hparse]
    rw [Tinyshot.tiny_ok parse now html opts st (by omega),
        Tinyshot.getElems_nil (by rw [hdom])]

/-- C2 witness: the guard fires at 5,000,001 characters, not at 5,000,000,
and a failing parse still yields a regex-fallback snapshot. -/
theorem c2_size_guard_witness :
    (Tinyshot.tiny (fun _ => none) 0 (List.replicate 5000001 'a') {} St.empty).1 = .error () ∧
    (∃ s, (Tinyshot.tiny (fun _ => none) 0 (List.replicate 5000000 'a') {} St.empty).1 = .ok s) ∧
    (Tinyshot.tiny (fun _ => none) 0 "<p>x</p>".toList {} St.empty).1 =
      .ok ⟨Tinyshot.getTitle "<p>x</p>".toList,
           (Tinyshot.getText "<p>x</p>".toList).take 1000,
           (Tinyshot.getElemsRegex "<p>x</p>".toList).take 15⟩ :=
  ⟨(c2_size_guard (fun _ => none) 0 (List.replicate 5000001 'a') {} St.empty).1.mpr
     (by rw [List.length_replicate]; omega),
   (c2_size_guard (fun _ => none) 0 (List.replicate 5000000 'a') {} St.empty).2.1
     (by rw [List.length_replicate]),
   (c2_size_guard (fun _ => none) 0 "<p>x</p>".toList {} St.empty).2.2
     rfl rfl (by decide)⟩

/-- C3 counterexample: on the login-form scenario input the element kinds are
not `input, input, button` — the DOM pass scans the `button` selector before
`input[type]`, so the button comes first. -/
theorem c3_login_order_cex :
    ∃ s, (Tinyshot.tiny parseLogin 0 loginHtml {} St.empty).1 = .ok s ∧
      ¬ s.elems.map Elem.type = [.input, .input, .btn] :=
  ⟨loginSnap, by decide, by decide⟩

/-- C3 amended: the login-form scenario yields title `"Login"` and exactly 3
elements whose kinds are, in order, button, input, input, the button's label
being `"Sign In"`. -/
theorem c3_login_scenario :
    (Tinyshot.tiny parseLogin 0 loginHtml {} St.empty).1 = .ok loginSnap ∧
    loginSnap.title = "Login".toList ∧
    loginSnap.elems.map Elem.type = [.btn, .input, .input] ∧
    (loginSnap.elems.map Elem.text).head? = some "Sign In".toList := by
  refine ⟨by decide, by decide, by decide, by decide⟩

/-- C4 counterexample: an input whose placeholder is 35 characters long
yields a snapshot element with a 35-character label — input labels are not
truncated to 30. -/
theorem c4_label_cex :
    ∃ s, (Tinyshot.tiny (fun _ => none) 0 phHtml {} St.empty).1 = .ok s ∧
      ∃ e ∈ s.elems, 30 < e.text.length :=
  ⟨phSnap, by decide, phSnap.elems.head (by decide), by decide, by decide⟩

/-- C4 amended: every element whose kind is not `input` has a label of at
most 30 characters, on the DOM conversion and on the regex fallback alike;
`input` (and `textarea`) elements carry the placeholder/name attribute (or a
literal default) verbatim, which may exceed 30 characters. -/
theorem c4_label_truncation :
    (∀ (e : LocE) (sel : Str), (Tinyshot.elemToElemSel e sel).type ≠ .input →
      (Tinyshot.elemToElemSel e sel).text.length ≤ 30) ∧
    (∀ html : Str, ∀ el ∈ Tinyshot.getElemsRegex html, el.type ≠ .input →
      el.text.length ≤ 30) := by
  constructor
  · intro e sel h
    unfold Tinyshot.elemToElemSel at *
    dsimp only at *
    split_ifs at * <;>
      first
        | exact List.length_take_le _ _
        | exact absurd rfl h
        | (dsimp only; decide)
  · intro html el hel htype
    unfold Tinyshot.getElemsRegex at hel
    rcases List.mem_append.mp hel with h1 | h2
    · rcases List.mem_append.mp h1 with hb | hl
      · obtain ⟨m, _, hm⟩ := List.mem_filterMap.mp hb
        dsimp only at hm
        split at hm
        · cases Option.some_inj.mp hm; exact List.length_take_le _ _
        · cases hm
      · obtain ⟨m, _, hm⟩ := List.mem_filterMap.mp hl
        dsimp only at hm
        split at hm
        · cases Option.some_inj.mp hm; exact List.length_take_le _ _
        · cases hm
    · obtain ⟨m, _, hm⟩ := List.mem_map.mp h2
      cases hm
      exact absurd rfl htype

/-- C4 amended witness at concrete elements. -/
theorem c4_label_truncation_witness :
    (Tinyshot.elemToElemSel plainBtnLoc []).text.length ≤ 30 ∧
    (⟨.btn, "Sign In".toList, "button".toList, none⟩ : Elem).text.length ≤ 30 :=
  ⟨c4_label_truncation.1 plainBtnLoc [] (by decide),
   c4_label_truncation.2 loginHtml ⟨.btn, "Sign In".toList, "button".toList, none⟩
     (by decide) (by decide)⟩

/-- C8: the element list comes entirely from one strategy — the DOM pass
provides everything when it yields at least one element, the regex pass runs
exactly when the DOM pass yields zero, and every regex-pass element carries a
bare tag-name selector. -/
theorem c8_strategy_chain (parse : Str → Option DNode) (html : Str) (st : St) :
    ((Tinyshot.getElemsDom parse html st).1 ≠ [] →
      Tinyshot.getElems parse html st = Tinyshot.getElemsDom parse html st) ∧
    ((Tinyshot.getElemsDom parse html st).1 = [] →
      Tinyshot.getElems parse html st =
        (Tinyshot.getElemsRegex html, (Tinyshot.getElemsDom parse html st).2)) ∧
    (∀ el ∈ Tinyshot.getElemsRegex html,
      el.sel = "button".toList ∨ el.sel = "a".toList ∨ el.sel = "input".toList) :=
  ⟨Tinyshot.getElems_pos, Tinyshot.getElems_nil,
   fun _ hel => Tinyshot.getElemsRegex_sel hel⟩

/-- C8 witness: the login document takes the DOM path, a failing parse takes
the regex path, and a concrete regex element has a bare tag selector. -/
theorem c8_strategy_chain_witness :
    Tinyshot.getElems parseLogin loginHtml St.empty =
      Tinyshot.getElemsDom parseLogin loginHtml St.empty ∧
    Tinyshot.getElems (fun _ => none) loginHtml St.empty =
      (Tinyshot.getElemsRegex loginHtml,
       (Tinyshot.getElemsDom (fun _ => none) loginHtml St.empty).2) ∧
    ((⟨.btn, "Sign In".toList, "button".toList, none⟩ : Elem).sel = "button".toList ∨
     (⟨.btn, "Sign In".toList, "button".toList, none⟩ : Elem).sel = "a".toList ∨
     (⟨.btn, "Sign In".toList, "button".toList, none⟩ : Elem).sel = "input".toList) :=
  ⟨(c8_strategy_chain parseLogin loginHtml St.empty).1 (by decide),
   (c8_strategy_chain (fun _ => none) loginHtml St.empty).2.1 (by decide),
   (c8_strategy_chain (fun _ => none) loginHtml St.empty).2.2 _ (by decide)⟩

/-- C9: whenever the DOM pass produced the element list, the snapshot has at
most 50 elements regardless of `maxElems`; on the regex fallback there is no
such cap — 51 buttons with `maxElems = 100` yield 51 elements. -/
theorem c9_dom_cap (parse : Str → Option DNode) (now : Nat) (html : Str)
    (opts : CompOpts) (st : St) :
    ((Tinyshot.getElemsDom parse html (Tinyshot.cleanupCaches now st)).1 ≠ [] →
      ∀ s st', Tinyshot.tiny parse now html opts st = (.ok s, st') →
        s.elems.length ≤ 50) ∧
    (∃ s, (Tinyshot.tiny (fun _ => none) 0 fiftyOneBtns ⟨1000, 100⟩ St.empty).1 = .ok s ∧
      (Tinyshot.getElemsDom (fun _ => none) fiftyOneBtns
        (Tinyshot.cleanupCaches 0 St.empty)).1 = [] ∧
      50 < s.elems.length) := by
  constructor
  · intro hne s st' heq
    by_cases hbig : 5000000 < html.length
    · rw [Tinyshot.tiny_err parse now html opts st hbig] at heq
      exact absurd (congrArg Prod.fst heq) (by simp)
    · rw [Tinyshot.tiny_ok parse now html opts st hbig,
          Tinyshot.getElems_pos hne, Prod.mk.injEq] at heq
      obtain ⟨h1, _⟩ := heq
      injection h1 with h1
      subst h1
      exact le_trans (by rw [List.length_take]; exact min_le_right _ _)
        (Tinyshot.getElemsDom_le_50 parse html _)
  · refine ⟨⟨Tinyshot.getTitle fiftyOneBtns, (Tinyshot.getText fiftyOneBtns).take 1000,
      (Tinyshot.getElemsRegex fiftyOneBtns).take 100⟩, ?_, by decide, by decide⟩
    have h0 := Tinyshot.tiny_ok (fun _ => none) 0 fiftyOneBtns ⟨1000, 100⟩ St.empty
      (by decide)
    rw [Tinyshot.getElems_nil (by decide)] at h0
    rw [h0]

/-- C9 witness: the DOM path on the login document respects the cap. -/
theorem c9_dom_cap_witness :
    (⟨Tinyshot.getTitle loginHtml, (Tinyshot.getText loginHtml).take 1000,
      (Tinyshot.getElems parseLogin loginHtml
        (Tinyshot.cleanupCaches 0 St.empty)).1.take 15⟩ : CompSnapshot).elems.length ≤ 50 :=
  (c9_dom_cap parseLogin 0 loginHtml {} St.empty).1 (by decide) _ _
    (Tinyshot.tiny_ok parseLogin 0 loginHtml {} St.empty (by decide))

namespace Tinyshot

/-- An element that is not a useless wrapper is left alone by the unwrap
loop. -/
theorem unwrapElement_of_not_wrapper {e : LocE}
    (h : isUselessWrapper e.node = false) : unwrapElement e = e := by
  unfold unwrapElement unwrapLoop
  simp [h]

theorem mem_pushUnwrapped {acc : List LocE} {el x : LocE}
    (hx : x ∈ pushUnwrapped acc el) : x ∈ acc ∨ x = unwrapElement el := by
  unfold pushUnwrapped at hx
  dsimp only at hx
  split at hx
  · exact Or.inl hx
  · rcases List.mem_append.mp hx with h | h
    · exact Or.inl h
    · exact Or.inr (List.mem_singleton.mp h)

theorem mem_foldl_pushUnwrapped :
    ∀ (l acc : List LocE) (x : LocE), x ∈ l.foldl pushUnwrapped acc →
      x ∈ acc ∨ ∃ e ∈ l, x = unwrapElement e := by
  intro l
  induction l with
  | nil => intro acc x hx; exact Or.inl hx
  | cons e t ih =>
    intro acc x hx
    rcases ih (pushUnwrapped acc e) x hx with h | ⟨e', he', hxe⟩
    · rcases mem_pushUnwrapped h with h' | h'
      · exact Or.inl h'
      · exact Or.inr ⟨e, List.mem_cons_self e t, h'⟩
    · exact Or.inr ⟨e', List.mem_cons_of_mem e he', hxe⟩

theorem includesElem_eq_false {acc : List LocE} {u : LocE}
    (h : includesElem acc u = false) : ∀ x ∈ acc, x.path ≠ u.path := by
  intro x hx
  unfold includesElem at h
  rw [List.any_eq_false] at h
  have := h x hx
  simpa using this

theorem nodup_pushUnwrapped {acc : List LocE} (el : LocE)
    (h : (acc.map LocE.path).Nodup) :
    ((pushUnwrapped acc el).map LocE.path).Nodup := by
  unfold pushUnwrapped
  dsimp only
  split
  · exact h
  next hinc =>
    rw [List.map_append]
    rw [List.nodup_append]
    refine ⟨h, List.nodup_singleton _, ?_⟩
    intro p hp
    obtain ⟨x, hx, rfl⟩ := List.mem_map.mp hp
    simp only [List.map_cons, List.map_nil, List.mem_singleton]
    exact includesElem_eq_false (Bool.of_not_eq_true hinc) x hx

theorem nodup_foldl_pushUnwrapped :
    ∀ (l acc : List LocE), (acc.map LocE.path).Nodup →
      ((l.foldl pushUnwrapped acc).map LocE.path).Nodup := by
  intro l
  induction l with
  | nil => intro acc h; exact h
  | cons e t ih => intro acc h; exact ih _ (nodup_pushUnwrapped e h)

/-- Folding the push-unique step over already-unwrapped, path-distinct
elements just appends them. -/
theorem foldl_pushUnwrapped_fixed :
    ∀ (m acc : List LocE), (∀ e ∈ m, unwrapElement e = e) →
      (((acc ++ m).map LocE.path)).Nodup →
      m.foldl pushUnwrapped acc = acc ++ m := by
  intro m
  induction m with
  | nil => intro acc _ _; simp
  | cons e t ih =>
    intro acc hfix hnd
    have hue : unwrapElement e = e := hfix e (List.mem_cons_self e t)
    have hnotin : e.path ∉ acc.map LocE.path := by
      intro hmem
      rw [List.map_append, List.nodup_append] at hnd
      exact hnd.2.2 hmem (by simp)
    have hinc : includesElem acc e = false := by
      rw [Bool.eq_false_iff]
      intro htrue
      unfold includesElem at htrue
      rw [List.any_eq_true] at htrue
      obtain ⟨x, hx, hbx⟩ := htrue
      rw [beq_iff_eq] at hbx
      exact hnotin (hbx ▸ List.mem_map_of_mem LocE.path hx)
    have hstep : pushUnwrapped acc e = acc ++ [e] := by
      unfold pushUnwrapped
      dsimp only
      rw [hue, hinc]
      simp
    rw [List.foldl_cons, hstep, ih (acc ++ [e]) (fun x hx => hfix x (List.mem_cons_of_mem e hx))
      (by rwa [List.append_assoc, List.singleton_append])]
    rw [List.append_assoc, List.singleton_append]

end Tinyshot

/-- C6 counterexample: six nested useless wrappers around a button — one
pass stops at the 5-level bound with a wrapper still on top, a second pass
unwraps further, so the pass is not idempotent. -/
theorem c6_unwrap_idem_cex :
    Tinyshot.unwrapUselessWrappers (Tinyshot.unwrapUselessWrappers [deepWrappedLoc]) ≠
      Tinyshot.unwrapUselessWrappers [deepWrappedLoc] :=
  fun h => absurd (congrArg (List.map LocE.path) h) (by decide)

/-- C6 amended: the unwrap pass is idempotent on lists whose elements fully
unwrap within the 5-level bound, i.e. when one pass leaves no useless
wrapper (wrapper nesting of depth at most 5); deeper nesting escapes the
bound and falsifies idempotence. -/
theorem c6_unwrap_idem (l : List LocE)
    (h : ∀ e ∈ l, Tinyshot.isUselessWrapper (Tinyshot.unwrapElement e).node = false) :
    Tinyshot.unwrapUselessWrappers (Tinyshot.unwrapUselessWrappers l) =
      Tinyshot.unwrapUselessWrappers l := by
  have hm : ∀ x ∈ Tinyshot.unwrapUselessWrappers l, Tinyshot.unwrapElement x = x := by
    intro x hx
    rcases Tinyshot.mem_foldl_pushUnwrapped l [] x hx with hc | ⟨e, he, rfl⟩
    · cases hc
    · exact Tinyshot.unwrapElement_of_not_wrapper (h e he)
  have hnd : ((Tinyshot.unwrapUselessWrappers l).map LocE.path).Nodup :=
    Tinyshot.nodup_foldl_pushUnwrapped l [] (by simp)
  have := Tinyshot.foldl_pushUnwrapped_fixed (Tinyshot.unwrapUselessWrappers l) [] hm
    (by simpa using hnd)
  simpa [Tinyshot.unwrapUselessWrappers] using this

/-- C6 amended witness: a plain button list is a fixed point. -/
theorem c6_unwrap_idem_witness :
    Tinyshot.unwrapUselessWrappers (Tinyshot.unwrapUselessWrappers [plainBtnLoc]) =
      Tinyshot.unwrapUselessWrappers [plainBtnLoc] :=
  c6_unwrap_idem [plainBtnLoc] (by decide)

/-- C7 counterexample: an element whose id fails the meaningful-id tests
(length 33), yet whose synthesized selector is exactly `#` followed by that
id — the id itself embeds the text of the qualified selector (possible
because attribute values may contain spaces). -/
theorem c7_bare_id_cex :
    Tinyshot.isMeaningfulId trickyLoc.node.idAttr = false ∧
    30 ≤ trickyLoc.node.idAttr.length ∧
    Tinyshot.generateMeaningfulSelectorUncached trickyLoc = '#' :: trickyLoc.node.idAttr ∧
    (Tinyshot.generateMeaningfulSelector trickyLoc St.empty).1 = '#' :: trickyLoc.node.idAttr :=
  ⟨by decide, by decide, by decide, by decide⟩

/-- C7 amended: an element whose id avoids the auto-generated patterns and
has length strictly between 2 and 30 gets exactly `#id` as its selector; for
an element whose id fails these tests, the selector is never that bare `#id`
form provided the id contains no space (as in valid HTML) and the tag is a
real tag name (nonempty, not beginning with `#`). -/
theorem c7_meaningful_id_selector :
    (∀ e : LocE, Tinyshot.meaninglessIdTest e.node.idAttr = false →
      2 < e.node.idAttr.length → e.node.idAttr.length < 30 →
      Tinyshot.generateMeaningfulSelectorUncached e = '#' :: e.node.idAttr) ∧
    (∀ e : LocE, Tinyshot.isMeaningfulId e.node.idAttr = false →
      ' ' ∉ e.node.idAttr → e.node.tag ≠ [] → e.node.tag.head? ≠ some '#' →
      Tinyshot.generateMeaningfulSelectorUncached e ≠ '#' :: e.node.idAttr) := by
  constructor
  · intro e hp h2 h30
    have hid : e.node.idAttr ≠ [] := by
      intro h
      rw [h] at h2
      simp at h2
    have hm : Tinyshot.isMeaningfulId e.node.idAttr = true := by
      unfold Tinyshot.isMeaningfulId
      rw [hp]
      simp [h2, h30]
    unfold Tinyshot.generateMeaningfulSelectorUncached
    dsimp only
    rw [if_pos ⟨hid, hm⟩]
  · intro e hmf hsp htag hhead
    unfold Tinyshot.generateMeaningfulSelectorUncached
    dsimp only
    rw [if_neg (fun hc => by rw [hmf] at hc; exact absurd hc.2 (by simp))]
    split
    · intro heq
      have hmem : (' ' : Char) ∈ '#' :: e.node.idAttr := by
        rw [← heq]
        simp [show (' ' : Char) ∈ " ".toList from by decide]
      rcases List.mem_cons.mp hmem with h | h
      · exact absurd h (by decide)
      · exact hsp h
    · intro heq
      rcases htagl : e.node.tag with _ | ⟨c, rest⟩
      · exact htag htagl
      · rw [htagl] at heq
        have hc : c = '#' := by
          have := congrArg List.head? heq
          simpa using this
        rw [htagl, List.head?_cons, hc] at hhead
        exact hhead rfl

/-- C7 amended witness: a human-authored id yields the bare `#id`, a purely
numeric id does not. -/
theorem c7_meaningful_id_selector_witness :
    Tinyshot.generateMeaningfulSelectorUncached goodIdLoc = '#' :: goodIdLoc.node.idAttr ∧
    Tinyshot.generateMeaningfulSelectorUncached numIdLoc ≠ '#' :: numIdLoc.node.idAttr :=
  ⟨c7_meaningful_id_selector.1 goodIdLoc (by decide) (by decide) (by decide),
   c7_meaningful_id_selector.2 numIdLoc (by decide) (by decide) (by decide) (by decide)⟩

theorem mapGet_mem [DecidableEq α] {m : List (α × β)} {k : α} {v : β}
    (h : mapGet m k = some v) : (k, v) ∈ m := by
  induction m with
  | nil => cases h
  | cons p t ih =>
    rcases p with ⟨k', v'⟩
    unfold mapGet at h
    split at h
    next heq =>
      cases h
      subst heq
      exact List.mem_cons_self _ _
    next => exact List.mem_cons_of_mem _ (ih h)

namespace Tinyshot

theorem mem_getGroup_addToGroup {g : List (Str × List Elem)} {k k' : Str}
    {x e : Elem} (he : e ∈ getGroup g k) : e ∈ getGroup (addToGroup g k' x) k := by
  induction g with
  | nil => simp [getGroup, mapGet] at he
  | cons p t ih =>
    rcases p with ⟨k0, l⟩
    unfold addToGroup
    by_cases hk0 : k0 = k'
    · rw [if_pos hk0]
      by_cases hkk : k0 = k
      · unfold getGroup mapGet at he ⊢
        rw [if_pos hkk] at he ⊢
        simp only [Option.getD_some] at he ⊢
        exact List.mem_append_left _ he
      · unfold getGroup mapGet at he ⊢
        rw [if_neg hkk] at he ⊢
        exact he
    · rw [if_neg hk0]
      by_cases hkk : k0 = k
      · unfold getGroup mapGet at he ⊢
        rw [if_pos hkk] at he ⊢
        exact he
      · unfold getGroup mapGet at he ⊢
        rw [if_neg hkk] at he ⊢
        exact ih he

theorem mem_getGroup_addToGroup_self (g : List (Str × List Elem)) (k : Str)
    (x : Elem) : x ∈ getGroup (addToGroup g k x) k := by
  induction g with
  | nil => simp [addToGroup, getGroup, mapGet]
  | cons p t ih =>
    rcases p with ⟨k0, l⟩
    unfold addToGroup
    by_cases hk0 : k0 = k
    · rw [if_pos hk0]
      unfold getGroup mapGet
      rw [if_pos hk0]
      simp
    · rw [if_neg hk0]
      unfold getGroup mapGet
      rw [if_neg hk0]
      exact ih

theorem mem_getGroup_foldl :
    ∀ (elems : List Elem) (g : List (Str × List Elem)) (e : Elem),
      (e ∈ elems ∨ e ∈ getGroup g (effContext e)) →
      e ∈ getGroup (elems.foldl (fun g x => addToGroup g (effContext x) x) g)
        (effContext e) := by
  intro elems
  induction elems with
  | nil =>
    intro g e h
    rcases h with h | h
    · cases h
    · exact h
  | cons x t ih =>
    intro g e h
    rw [List.foldl_cons]
    apply ih
    rcases h with h | h
    · rcases List.mem_cons.mp h with rfl | hmem
      · exact Or.inr (mem_getGroup_addToGroup_self g (effContext e) e)
      · exact Or.inl hmem
    · exact Or.inr (mem_getGroup_addToGroup h)

/-- Every element of the input belongs to its context bucket in the grouped
map. -/
theorem mem_groupElementsByContext {elems : List Elem} {e : Elem}
    (he : e ∈ elems) :
    e ∈ getGroup (groupElementsByContext elems) (effContext e) :=
  mem_getGroup_foldl elems [] e (Or.inl he)

theorem hasGroup_of_mem {g : List (Str × List Elem)} {k : Str} {e : Elem}
    (he : e ∈ getGroup g k) : hasGroup g k = true := by
  unfold getGroup at he
  unfold hasGroup
  rcases hm : mapGet g k with _ | l
  · rw [hm] at he
    cases he
  · rfl

theorem mem_formElems {g : List (Str × List Elem)} {e : Elem} :
    ∀ (ctxs : List Str) (k : Str), k ∈ ctxs → e ∈ getGroup g k →
      e ∈ ctxs.foldr (fun ctx acc => getGroup g ctx ++ acc) [] := by
  intro ctxs
  induction ctxs with
  | nil => intro k h; cases h
  | cons c t ih =>
    intro k hk he
    rw [List.foldr_cons]
    rcases List.mem_cons.mp hk with rfl | hmem
    · exact List.mem_append_left _ he
    · exact List.mem_append_right _ (ih k hmem he)

theorem mem_foldr_groups {e : Elem} {k : Str} {l : List Elem} :
    ∀ gl : List (Str × List Elem), (k, l) ∈ gl → e ∈ l →
      e ∈ gl.foldr (fun p acc => p.2 ++ acc) [] := by
  intro gl
  induction gl with
  | nil => intro h _; cases h
  | cons p t ih =>
    intro hmem he
    rw [List.foldr_cons]
    rcases List.mem_cons.mp hmem with rfl | hmem'
    · exact List.mem_append_left _ he
    · exact List.mem_append_right _ (ih hmem' he)

theorem mem_generalElems {g : List (Str × List Elem)} {e : Elem} {k : Str}
    {excluded : List Str} (he : e ∈ getGroup g k)
    (hk : excluded.contains k = false) :
    e ∈ (g.filter (fun p => ¬ excluded.contains p.1)).foldr
      (fun p acc => p.2 ++ acc) [] := by
  unfold getGroup at he
  rcases hm : mapGet g k with _ | l
  · rw [hm] at he
    cases he
  · rw [hm] at he
    simp only [Option.getD_some] at he
    have hmem : (k, l) ∈ g.filter (fun p => ¬ excluded.contains p.1) := by
      rw [List.mem_filter]
      refine ⟨mapGet_mem hm, ?_⟩
      simp only [hk]
      decide
    exact mem_foldr_groups _ hmem he

/-- An element of a section's list is rendered inside the section string
(`pre ++ items.join('\n') ++ post`). -/
theorem substrOf_items {e : Elem} {elems : List Elem} (ind pre post : Str)
    (he : e ∈ elems) :
    JsStr.substrOf (elemToHtml e ind)
      (pre ++ JsStr.joinSep "\n".toList (elems.map (fun x => elemToHtml x ind)) ++ post) = true :=
  JsStr.substrOf_appendR post
    (JsStr.substrOf_appendL pre
      (JsStr.substrOf_joinSep (List.mem_map_of_mem _ he) (JsStr.substrOf_refl _)))

end Tinyshot

namespace Tinyshot

/-- Every element of a context bucket is rendered (with the indentation of
its section) inside the semantic body. -/
theorem substrOf_body_of_mem_group {groups : List (Str × List Elem)}
    (text : Str) {e : Elem} {k : Str} (he : e ∈ getGroup groups k) :
    ∃ ind, JsStr.substrOf (elemToHtml e ind)
      (generateSemanticBody groups text) = true := by
  unfold generateSemanticBody
  dsimp only
  by_cases hnav : k = "nav".toList ∨ k = "nav > menu".toList
  · refine ⟨"      ".toList, ?_⟩
    have hhas : hasGroup groups "nav".toList = true ∨
        hasGroup groups "nav > menu".toList = true := by
      rcases hnav with rfl | rfl
      · exact Or.inl (hasGroup_of_mem he)
      · exact Or.inr (hasGroup_of_mem he)
    have hememb : e ∈ getGroup groups "nav".toList ++
        getGroup groups "nav > menu".toList := by
      rcases hnav with rfl | rfl
      · exact List.mem_append_left _ he
      · exact List.mem_append_right _ he
    rw [if_pos hhas, if_pos (List.ne_nil_of_mem hememb)]
    refine JsStr.substrOf_joinSep
      (List.mem_append_left _ (List.mem_append_left _ (List.mem_singleton_self _))) ?_
    unfold generateNavSection
    exact substrOf_items _ _ _ hememb
  · by_cases hhd : k = "header".toList
    · subst hhd
      refine ⟨"    ".toList, ?_⟩
      rw [if_pos (hasGroup_of_mem he)]
      refine JsStr.substrOf_joinSep
        (List.mem_append_left _ (List.mem_append_right _ (List.mem_singleton_self _))) ?_
      unfold generateHeaderSection
      exact substrOf_items _ _ _ he
    · by_cases hform : k ∈ formContexts
      · refine ⟨"      ".toList, ?_⟩
        have hfe : e ∈ formContexts.foldr
            (fun ctx acc => getGroup groups ctx ++ acc) [] :=
          mem_formElems formContexts k hform he
        rw [if_pos (List.ne_nil_of_mem hfe)]
        rw [if_pos (show (([generateFormSection (formContexts.foldr
          (fun ctx acc => getGroup groups ctx ++ acc) [])] ++ _) ≠ []) from by simp)]
        refine JsStr.substrOf_joinSep
          (List.mem_append_right _ (List.mem_singleton_self _)) ?_
        refine JsStr.substrOf_appendR _ (JsStr.substrOf_appendL _ ?_)
        refine JsStr.substrOf_joinSep
          (List.mem_append_left _ (List.mem_singleton_self _)) ?_
        unfold generateFormSection
        exact substrOf_items _ _ _ hfe
      · refine ⟨"        ".toList, ?_⟩
        have hk : (["nav".toList, "nav > menu".toList, "header".toList] ++
            formContexts).contains k = false := by
          rw [Bool.eq_false_iff]
          intro htrue
          have hmem : k ∈ ["nav".toList, "nav > menu".toList, "header".toList] ++
              formContexts := by simpa using htrue
          rcases List.mem_append.mp hmem with h3 | hf
          · simp only [List.mem_cons, List.not_mem_nil, or_false] at h3
            rcases h3 with h | h | h
            · exact hnav (Or.inl h)
            · exact hnav (Or.inr h)
            · exact hhd h
          · exact hform hf
        have hge : e ∈ ((groups.filter (fun p =>
            ¬ (["nav".toList, "nav > menu".toList, "header".toList] ++
              formContexts).contains p.1)).foldr (fun p acc => p.2 ++ acc) []) :=
          mem_generalElems he hk
        rw [if_pos (Or.inr (List.ne_nil_of_mem hge))]
        rw [if_pos (show _ ++ [generateContentSection text _] ≠ [] from by simp)]
        refine JsStr.substrOf_joinSep
          (List.mem_append_right _ (List.mem_singleton_self _)) ?_
        refine JsStr.substrOf_appendR _ (JsStr.substrOf_appendL _ ?_)
        refine JsStr.substrOf_joinSep
          (List.mem_append_right _ (List.mem_singleton_self _)) ?_
        unfold generateContentSection
        dsimp only
        rw [if_pos (List.ne_nil_of_mem hge)]
        refine JsStr.substrOf_appendR _ (JsStr.substrOf_appendL _ ?_)
        refine JsStr.substrOf_joinSep (List.mem_append_right _
          (List.mem_append_left _ (List.mem_append_right _
            (List.mem_map_of_mem _ hge)))) ?_
        exact JsStr.substrOf_refl _

end Tinyshot

namespace Tinyshot

/-- The selector is embedded verbatim as `sel="..."` in every rendered
element. -/
theorem substrOf_elemToHtml_sel (e : Elem) (ind : Str) :
    JsStr.substrOf ("sel=\"".toList ++ e.sel ++ "\"".toList) (elemToHtml e ind) = true := by
  rcases e with ⟨ty, tx, sl, cx⟩
  have hq : ("\">" : String).toList = "\"".toList ++ ">".toList := by decide
  cases ty
  · -- btn
    have h1 : ("<button sel=\"" : String).toList =
        "<button ".toList ++ "sel=\"".toList := by decide
    refine JsStr.substrOf_iff.mpr ⟨ind ++ "<button ".toList,
      ">".toList ++ escapeHtml tx ++ "</button>".toList, ?_⟩
    simp only [elemToHtml, h1, hq]
    simp [List.append_assoc]
  · -- input
    have h1 : ("<input type=\"text\" sel=\"" : String).toList =
        "<input type=\"text\" ".toList ++ "sel=\"".toList := by decide
    have h2 : ("\" placeholder=\"" : String).toList =
        "\"".toList ++ " placeholder=\"".toList := by decide
    refine JsStr.substrOf_iff.mpr ⟨ind ++ "<input type=\"text\" ".toList,
      " placeholder=\"".toList ++ escapeHtml tx ++ "\">".toList, ?_⟩
    simp only [elemToHtml, h1, h2]
    simp [List.append_assoc]
  · -- link
    have h1 : ("<a href=\"#\" sel=\"" : String).toList =
        "<a href=\"#\" ".toList ++ "sel=\"".toList := by decide
    refine JsStr.substrOf_iff.mpr ⟨ind ++ "<a href=\"#\" ".toList,
      ">".toList ++ escapeHtml tx ++ "</a>".toList, ?_⟩
    simp only [elemToHtml, h1, hq]
    simp [List.append_assoc]
  · -- select
    have h1 : ("<select sel=\"" : String).toList =
        "<select ".toList ++ "sel=\"".toList := by decide
    have h2 : ("\"><option>" : String).toList =
        "\"".toList ++ "><option>".toList := by decide
    refine JsStr.substrOf_iff.mpr ⟨ind ++ "<select ".toList,
      "><option>".toList ++ escapeHtml tx ++ "</option></select>".toList, ?_⟩
    simp only [elemToHtml, h1, h2]
    simp [List.append_assoc]

/-- The escaped label is embedded in every rendered element. -/
theorem substrOf_elemToHtml_text (e : Elem) (ind : Str) :
    JsStr.substrOf (escapeHtml e.text) (elemToHtml e ind) = true := by
  rcases e with ⟨ty, tx, sl, cx⟩
  cases ty
  · exact JsStr.substrOf_iff.mpr ⟨ind ++ "<button sel=\"".toList ++ sl ++ "\">".toList,
      "</button>".toList, by simp [elemToHtml, List.append_assoc]⟩
  · exact JsStr.substrOf_iff.mpr
      ⟨ind ++ "<input type=\"text\" sel=\"".toList ++ sl ++ "\" placeholder=\"".toList,
       "\">".toList, by simp [elemToHtml, List.append_assoc]⟩
  · exact JsStr.substrOf_iff.mpr ⟨ind ++ "<a href=\"#\" sel=\"".toList ++ sl ++ "\">".toList,
      "</a>".toList, by simp [elemToHtml, List.append_assoc]⟩
  · exact JsStr.substrOf_iff.mpr
      ⟨ind ++ "<select sel=\"".toList ++ sl ++ "\"><option>".toList,
       "</option></select>".toList, by simp [elemToHtml, List.append_assoc]⟩

theorem mem_replaceChar {x c : Char} {repl s : Str} (h : x ∈ replaceChar c repl s) :
    x ∈ repl ∨ (x ∈ s ∧ x ≠ c) := by
  induction s with
  | nil => cases h
  | cons ch t ih =>
    unfold replaceChar at h
    rw [List.foldr_cons] at h
    rcases List.mem_append.mp h with h1 | h2
    · split at h1
      next heq =>
        subst heq
        exact Or.inl h1
      next hne =>
        rw [List.mem_singleton] at h1
        subst h1
        exact Or.inr ⟨List.mem_cons_self _ _, hne⟩
    · rcases ih h2 with h3 | ⟨h3, h4⟩
      · exact Or.inl h3
      · exact Or.inr ⟨List.mem_cons_of_mem _ h3, h4⟩

/-- `escapeHtml` leaves no raw double quote in its output. -/
theorem escapeHtml_no_quote (t : Str) : '"' ∉ escapeHtml t := by
  intro h
  unfold escapeHtml at h
  rcases mem_replaceChar h with h1 | ⟨h2, _⟩
  · exact absurd h1 (by decide)
  · rcases mem_replaceChar h2 with h3 | ⟨_, h4⟩
    · exact absurd h3 (by decide)
    · exact h4 rfl

/-- Nonblank paragraphs of the page text are rendered escaped inside
`<p>...</p>` in the semantic body. -/
theorem substrOf_para_body (groups : List (Str × List Elem)) {text p : Str}
    (htext : JsStr.jsTrim text ≠ [])
    (hp : p ∈ (splitParas text).filter (fun q => JsStr.jsTrim q ≠ [])) :
    JsStr.substrOf ("<p>".toList ++ escapeHtml (JsStr.jsTrim p) ++ "</p>".toList)
      (generateSemanticBody groups text) = true := by
  unfold generateSemanticBody
  dsimp only
  rw [if_pos (Or.inl htext)]
  rw [if_pos (show _ ++ [generateContentSection text _] ≠ [] from by simp)]
  refine JsStr.substrOf_joinSep
    (List.mem_append_right _ (List.mem_singleton_self _)) ?_
  refine JsStr.substrOf_appendR _ (JsStr.substrOf_appendL _ ?_)
  refine JsStr.substrOf_joinSep
    (List.mem_append_right _ (List.mem_singleton_self _)) ?_
  unfold generateContentSection
  dsimp only
  rw [if_pos htext]
  refine JsStr.substrOf_appendR _ (JsStr.substrOf_appendL _ ?_)
  refine JsStr.substrOf_joinSep (List.mem_append_left _ (List.mem_map_of_mem _ hp)) ?_
  refine JsStr.substrOf_iff.mpr ⟨"      ".toList, [], ?_⟩
  have hsplit : ("      <p>" : String).toList = "      ".toList ++ "<p>".toList := by decide
  rw [hsplit]
  simp [List.append_assoc]

/-- The selector of an input with a nonempty `type` attribute (when the
meaningful-id branch is not taken) contains a double quote, from its
`[type="..."]` qualifier. -/
theorem quote_mem_selector {e : LocE} {t : Str}
    (htag : e.node.tag = "input".toList)
    (hty : e.node.getAttr "type".toList = some t) (ht : t ≠ [])
    (hid : ¬ (e.node.idAttr ≠ [] ∧ isMeaningfulId e.node.idAttr = true)) :
    '"' ∈ generateMeaningfulSelectorUncached e := by
  unfold generateMeaningfulSelectorUncached
  dsimp only
  rw [if_neg hid, htag, if_pos rfl, hty]
  dsimp only
  rw [if_pos ht]
  have hq : ('"' : Char) ∈ "[type=\"".toList := by decide
  split <;> simp [hq]

/-- Anything contained in the semantic body is contained in the restored
page. -/
theorem substrOf_restore_of_body {s : CompSnapshot} {m : Str}
    (h : JsStr.substrOf m
      (generateSemanticBody (groupElementsByContext s.elems) s.text) = true) :
    JsStr.substrOf m (restore s) = true := by
  unfold restore
  dsimp only
  exact JsStr.substrOf_appendR _ (JsStr.substrOf_appendL _ h)

end Tinyshot

/-- C10: `restore` HTML-escapes the title, each nonblank text paragraph and
each element label, but embeds each element's selector verbatim inside
`sel="..."`; since escaping removes every raw double quote while selectors
with a `[type="..."]` qualifier contain one, such snapshots restore to HTML
with unescaped double quotes inside an attribute value. -/
theorem c10_restore_escaping :
    (∀ s : CompSnapshot,
      JsStr.substrOf ("<title>".toList ++ Tinyshot.escapeHtml s.title ++ "</title>".toList)
        (Tinyshot.restore s) = true) ∧
    (∀ (e : Elem) (ind : Str),
      JsStr.substrOf ("sel=\"".toList ++ e.sel ++ "\"".toList)
        (Tinyshot.elemToHtml e ind) = true ∧
      JsStr.substrOf (Tinyshot.escapeHtml e.text) (Tinyshot.elemToHtml e ind) = true) ∧
    (∀ s : CompSnapshot, ∀ e ∈ s.elems,
      JsStr.substrOf ("sel=\"".toList ++ e.sel ++ "\"".toList)
        (Tinyshot.restore s) = true) ∧
    (∀ s : CompSnapshot, JsStr.jsTrim s.text ≠ [] →
      ∀ p ∈ (Tinyshot.splitParas s.text).filter (fun q => JsStr.jsTrim q ≠ []),
        JsStr.substrOf ("<p>".toList ++ Tinyshot.escapeHtml (JsStr.jsTrim p) ++ "</p>".toList)
          (Tinyshot.restore s) = true) ∧
    (∀ t : Str, '"' ∉ Tinyshot.escapeHtml t) ∧
    (∀ (e : LocE) (t : Str), e.node.tag = "input".toList →
      e.node.getAttr "type".toList = some t → t ≠ [] →
      ¬ (e.node.idAttr ≠ [] ∧ Tinyshot.isMeaningfulId e.node.idAttr = true) →
      '"' ∈ Tinyshot.generateMeaningfulSelectorUncached e) := by
  refine ⟨?_, ?_, ?_, ?_, Tinyshot.escapeHtml_no_quote,
    fun e t => Tinyshot.quote_mem_selector⟩
  · intro s
    unfold Tinyshot.restore
    dsimp only
    have h1 : ("<!DOCTYPE html>\n<html>\n<head>\n  <title>" : String).toList =
        "<!DOCTYPE html>\n<html>\n<head>\n  ".toList ++ "<title>".toList := by decide
    have h2 : ("</title>\n</head>\n<body>\n" : String).toList =
        "</title>".toList ++ "\n</head>\n<body>\n".toList := by decide
    refine JsStr.substrOf_iff.mpr ⟨"<!DOCTYPE html>\n<html>\n<head>\n  ".toList,
      "\n</head>\n<body>\n".toList ++
        Tinyshot.generateSemanticBody (Tinyshot.groupElementsByContext s.elems) s.text ++
        "\n</body>\n</html>".toList, ?_⟩
    rw [h1, h2]
    simp [List.append_assoc]
  · intro e ind
    exact ⟨Tinyshot.substrOf_elemToHtml_sel e ind, Tinyshot.substrOf_elemToHtml_text e ind⟩
  · intro s e he
    obtain ⟨ind, hb⟩ :=
      Tinyshot.substrOf_body_of_mem_group s.text (Tinyshot.mem_groupElementsByContext he)
    exact Tinyshot.substrOf_restore_of_body
      (JsStr.substrOf_trans (Tinyshot.substrOf_elemToHtml_sel e ind) hb)
  · intro s htext p hp
    exact Tinyshot.substrOf_restore_of_body
      (Tinyshot.substrOf_para_body _ htext hp)

/-- C10 witness on a concrete snapshot whose single element carries a
type-qualified input selector. -/
theorem c10_restore_escaping_witness :
    JsStr.substrOf
      ("sel=\"".toList ++ "form input[type=\"text\"]".toList ++ "\"".toList)
      (Tinyshot.restore quoteSnap) = true ∧
    JsStr.substrOf ("<p>".toList ++ Tinyshot.escapeHtml "hello".toList ++ "</p>".toList)
      (Tinyshot.restore quoteSnap) = true ∧
    '"' ∈ (⟨.input, "User".toList, "form input[type=\"text\"]".toList,
      some "form".toList⟩ : Elem).sel ∧
    '"' ∈ Tinyshot.generateMeaningfulSelectorUncached
      ⟨[], .elem "input".toList [("type".toList, "text".toList)] [], []⟩ :=
  ⟨c10_restore_escaping.2.2.1 quoteSnap
     ⟨.input, "User".toList, "form input[type=\"text\"]".toList, some "form".toList⟩
     (by decide),
   by
     have h := c10_restore_escaping.2.2.2.1 quoteSnap (by decide) "hello".toList (by decide)
     simpa using h,
   by decide,
   c10_restore_escaping.2.2.2.2.2
     ⟨[], .elem "input".toList [("type".toList, "text".toList)] [], []⟩
     "text".toList rfl rfl (by decide) (by decide)⟩

theorem mem_mapSet [DecidableEq α] {m : List (α × β)} {k : α} {v : β} {p : α × β}
    (h : p ∈ mapSet m k v) : p ∈ m ∨ p = (k, v) := by
  induction m with
  | nil => simpa [mapSet] using h
  | cons q t ih =>
    rcases q with ⟨k', v'⟩
    unfold mapSet at h
    split at h
    next heq =>
      rcases List.mem_cons.mp h with rfl | hm
      · exact Or.inr (by rw [heq])
      · exact Or.inl (List.mem_cons_of_mem _ hm)
    next =>
      rcases List.mem_cons.mp h with rfl | hm
      · exact Or.inl (List.mem_cons_self _ _)
      · rcases ih hm with h1 | h1
        · exact Or.inl (List.mem_cons_of_mem _ h1)
        · exact Or.inr h1

namespace Tinyshot

/-- With a faithful selector cache and collision-free selector keys, the
cached selector computation agrees with the uncached one and preserves cache
faithfulness (touching only the selector cache). -/
theorem generateMeaningfulSelector_spec {parse : Str → Option DNode}
    {H : List Str} {st : St}
    (hsel : SelCacheFaithful parse H st.selCache)
    (hcoh : ∀ h1 ∈ H, ∀ h2 ∈ H, ∀ e1 ∈ elemsOfParse parse h1,
      ∀ e2 ∈ elemsOfParse parse h2,
      getElementCacheKey e1 = getElementCacheKey e2 →
      generateMeaningfulSelectorUncached e1 = generateMeaningfulSelectorUncached e2)
    {h : Str} (hh : h ∈ H) {e : LocE} (he : e ∈ elemsOfParse parse h) :
    (generateMeaningfulSelector e st).1 = generateMeaningfulSelectorUncached e ∧
    (generateMeaningfulSelector e st).2.domCache = st.domCache ∧
    (generateMeaningfulSelector e st).2.lastCleanup = st.lastCleanup ∧
    SelCacheFaithful parse H (generateMeaningfulSelector e st).2.selCache := by
  unfold generateMeaningfulSelector
  dsimp only
  rcases hmg : mapGet st.selCache (getElementCacheKey e) with _ | v
  · refine ⟨rfl, rfl, rfl, ?_⟩
    intro q hq
    rcases mem_mapSet hq with hq1 | rfl
    · exact hsel q hq1
    · exact ⟨h, hh, e, he, rfl, rfl⟩
  · obtain ⟨h', hh', e', he', hkey, hval⟩ := hsel _ (mapGet_mem hmg)
    have hval' : generateMeaningfulSelectorUncached e' = v := hval
    have hkey' : getElementCacheKey e' = getElementCacheKey e := hkey
    refine ⟨?_, rfl, rfl, hsel⟩
    show v = generateMeaningfulSelectorUncached e
    rw [← hval']
    exact hcoh h' hh' h hh e' he' e he hkey'

theorem elemToElem_spec {parse : Str → Option DNode} {H : List Str} {st : St}
    (hsel : SelCacheFaithful parse H st.selCache)
    (hcoh : ∀ h1 ∈ H, ∀ h2 ∈ H, ∀ e1 ∈ elemsOfParse parse h1,
      ∀ e2 ∈ elemsOfParse parse h2,
      getElementCacheKey e1 = getElementCacheKey e2 →
      generateMeaningfulSelectorUncached e1 = generateMeaningfulSelectorUncached e2)
    {h : Str} (hh : h ∈ H) {e : LocE} (he : e ∈ elemsOfParse parse h) :
    (elemToElem e st).1 = elemToElemNoCache e ∧
    (elemToElem e st).2.domCache = st.domCache ∧
    (elemToElem e st).2.lastCleanup = st.lastCleanup ∧
    SelCacheFaithful parse H (elemToElem e st).2.selCache := by
  obtain ⟨h1, h2, h3, h4⟩ := generateMeaningfulSelector_spec hsel hcoh hh he
  unfold elemToElem elemToElemNoCache
  dsimp only
  exact ⟨by rw [h1], h2, h3, h4⟩

theorem elemToElemList_spec {parse : Str → Option DNode} {H : List Str}
    (hcoh : ∀ h1 ∈ H, ∀ h2 ∈ H, ∀ e1 ∈ elemsOfParse parse h1,
      ∀ e2 ∈ elemsOfParse parse h2,
      getElementCacheKey e1 = getElementCacheKey e2 →
      generateMeaningfulSelectorUncached e1 = generateMeaningfulSelectorUncached e2)
    {h : Str} (hh : h ∈ H) :
    ∀ (l : List LocE) (st : St), (∀ x ∈ l, x ∈ elemsOfParse parse h) →
      SelCacheFaithful parse H st.selCache →
      (elemToElemList l st).1 = l.map elemToElemNoCache ∧
      (elemToElemList l st).2.domCache = st.domCache ∧
      (elemToElemList l st).2.lastCleanup = st.lastCleanup ∧
      SelCacheFaithful parse H (elemToElemList l st).2.selCache := by
  intro l
  induction l with
  | nil => intro st _ hsel; exact ⟨rfl, rfl, rfl, hsel⟩
  | cons x t ih =>
    intro st hl hsel
    obtain ⟨h1, h2, h3, h4⟩ :=
      elemToElem_spec hsel hcoh hh (hl x (List.mem_cons_self _ _))
    obtain ⟨g1, g2, g3, g4⟩ :=
      ih (elemToElem x st).2 (fun y hy => hl y (List.mem_cons_of_mem _ hy)) h4
    unfold elemToElemList
    dsimp only
    exact ⟨by rw [h1, g1, List.map_cons], by rw [g2, h2], by rw [g3, h3], g4⟩

theorem getElemsDom_spec {parse : Str → Option DNode} {H : List Str} {st : St}
    (hinj : ∀ h1 ∈ H, ∀ h2 ∈ H,
      generateHtmlHash h1 = generateHtmlHash h2 → h1 = h2)
    (hcoh : ∀ h1 ∈ H, ∀ h2 ∈ H, ∀ e1 ∈ elemsOfParse parse h1,
      ∀ e2 ∈ elemsOfParse parse h2,
      getElementCacheKey e1 = getElementCacheKey e2 →
      generateMeaningfulSelectorUncached e1 = generateMeaningfulSelectorUncached e2)
    {h : Str} (hh : h ∈ H)
    (hdom : DomCacheFaithful parse H st.domCache)
    (hsel : SelCacheFaithful parse H st.selCache) :
    (getElemsDom parse h st).1 = getElemsDomNoCache parse h ∧
    DomCacheFaithful parse H (getElemsDom parse h st).2.domCache ∧
    SelCacheFaithful parse H (getElemsDom parse h st).2.selCache ∧
    (getElemsDom parse h st).2.lastCleanup = st.lastCleanup := by
  unfold getElemsDom getElemsDomNoCache
  dsimp only
  rcases hmg : mapGet st.domCache (generateHtmlHash h) with _ | doc
  · rcases hp : parse h with _ | doc
    · exact ⟨rfl, hdom, hsel, rfl⟩
    · have hmemE : ∀ x ∈ findMeaningfulElements doc, x ∈ elemsOfParse parse h := by
        intro x hx
        unfold elemsOfParse
        rw [hp]
        exact hx
      have hdom1 : DomCacheFaithful parse H
          (if st.domCache.length < 100 then
            { st with domCache := mapSet st.domCache (generateHtmlHash h) doc }
           else st).domCache := by
        split
        · intro p hp'
          rcases mem_mapSet hp' with h1 | rfl
          · exact hdom p h1
          · exact ⟨h, hh, rfl, hp⟩
        · exact hdom
      have hsel1 : SelCacheFaithful parse H
          (if st.domCache.length < 100 then
            { st with domCache := mapSet st.domCache (generateHtmlHash h) doc }
           else st).selCache := by
        split
        · exact hsel
        · exact hsel
      have hlc1 : (if st.domCache.length < 100 then
            { st with domCache := mapSet st.domCache (generateHtmlHash h) doc }
           else st).lastCleanup = st.lastCleanup := by
        split
        · rfl
        · rfl
      obtain ⟨g1, g2, g3, g4⟩ :=
        elemToElemList_spec hcoh hh (findMeaningfulElements doc) _ hmemE hsel1
      refine ⟨?_, ?_, g4, ?_⟩
      · show (elemToElemList (findMeaningfulElements doc)
            (if st.domCache.length < 100 then
              { st with domCache := mapSet st.domCache (generateHtmlHash h) doc }
             else st)).1.take 50 =
          (List.map elemToElemNoCache (findMeaningfulElements doc)).take 50
        rw [g1]
      · show DomCacheFaithful parse H (elemToElemList (findMeaningfulElements doc)
            (if st.domCache.length < 100 then
              { st with domCache := mapSet st.domCache (generateHtmlHash h) doc }
             else st)).2.domCache
        rw [g2]
        exact hdom1
      · show (elemToElemList (findMeaningfulElements doc)
            (if st.domCache.length < 100 then
              { st with domCache := mapSet st.domCache (generateHtmlHash h) doc }
             else st)).2.lastCleanup = st.lastCleanup
        rw [g3]
        exact hlc1
  · obtain ⟨h', hh', hhash, hp'⟩ := hdom _ (mapGet_mem hmg)
    have hh'eq : h' = h := hinj h' hh' h hh hhash
    subst hh'eq
    rw [hp']
    have hmemE : ∀ x ∈ findMeaningfulElements doc, x ∈ elemsOfParse parse h' := by
      intro x hx
      unfold elemsOfParse
      rw [hp']
      exact hx
    obtain ⟨g1, g2, g3, g4⟩ :=
      elemToElemList_spec hcoh hh (findMeaningfulElements doc) _ hmemE hsel
    refine ⟨?_, ?_, g4, g3⟩
    · show (elemToElemList (findMeaningfulElements doc) st).1.take 50 =
        (List.map elemToElemNoCache (findMeaningfulElements doc)).take 50
      rw [g1]
    · show DomCacheFaithful parse H
        (elemToElemList (findMeaningfulElements doc) st).2.domCache
      rw [g2]
      exact hdom

theorem getElems_spec {parse : Str → Option DNode} {H : List Str} {st : St}
    (hinj : ∀ h1 ∈ H, ∀ h2 ∈ H,
      generateHtmlHash h1 = generateHtmlHash h2 → h1 = h2)
    (hcoh : ∀ h1 ∈ H, ∀ h2 ∈ H, ∀ e1 ∈ elemsOfParse parse h1,
      ∀ e2 ∈ elemsOfParse parse h2,
      getElementCacheKey e1 = getElementCacheKey e2 →
      generateMeaningfulSelectorUncached e1 = generateMeaningfulSelectorUncached e2)
    {h : Str} (hh : h ∈ H)
    (hdom : DomCacheFaithful parse H st.domCache)
    (hsel : SelCacheFaithful parse H st.selCache) :
    (getElems parse h st).1 = getElemsNoCache parse h ∧
    DomCacheFaithful parse H (getElems parse h st).2.domCache ∧
    SelCacheFaithful parse H (getElems parse h st).2.selCache := by
  obtain ⟨g1, g2, g3, _⟩ := getElemsDom_spec hinj hcoh hh hdom hsel
  unfold getElems getElemsNoCache
  dsimp only
  by_cases hc : 0 < (getElemsDomNoCache parse h).length
  · rw [if_pos (g1 ▸ hc), if_pos hc]
    exact ⟨g1, g2, g3⟩
  · rw [if_neg (g1 ▸ hc), if_neg hc]
    exact ⟨rfl, g2, g3⟩

theorem cleanupCaches_dom_faithful {parse : Str → Option DNode} {H : List Str}
    {st : St} (now : Nat) (hdom : DomCacheFaithful parse H st.domCache) :
    DomCacheFaithful parse H (cleanupCaches now st).domCache := by
  unfold cleanupCaches
  split
  · dsimp only
    split
    · intro p hp
      exact hdom p (List.mem_of_mem_drop hp)
    · exact hdom
  · exact hdom

theorem cleanupCaches_sel_faithful {parse : Str → Option DNode} {H : List Str}
    {st : St} (now : Nat) (hsel : SelCacheFaithful parse H st.selCache) :
    SelCacheFaithful parse H (cleanupCaches now st).selCache := by
  unfold cleanupCaches
  split
  · intro q hq
    cases hq
  · exact hsel

theorem tiny_spec {parse : Str → Option DNode} {H : List Str} {st : St}
    (hinj : ∀ h1 ∈ H, ∀ h2 ∈ H,
      generateHtmlHash h1 = generateHtmlHash h2 → h1 = h2)
    (hcoh : ∀ h1 ∈ H, ∀ h2 ∈ H, ∀ e1 ∈ elemsOfParse parse h1,
      ∀ e2 ∈ elemsOfParse parse h2,
      getElementCacheKey e1 = getElementCacheKey e2 →
      generateMeaningfulSelectorUncached e1 = generateMeaningfulSelectorUncached e2)
    {h : Str} (hh : h ∈ H) (now : Nat) (opts : CompOpts)
    (hdom : DomCacheFaithful parse H st.domCache)
    (hsel : SelCacheFaithful parse H st.selCache) :
    (tiny parse now h opts st).1 = tinyNoCache parse h opts ∧
    DomCacheFaithful parse H (tiny parse now h opts st).2.domCache ∧
    SelCacheFaithful parse H (tiny parse now h opts st).2.selCache := by
  have hdom0 := @cleanupCaches_dom_faithful parse H st now hdom
  have hsel0 := @cleanupCaches_sel_faithful parse H st now hsel
  unfold tiny tinyNoCache
  dsimp only
  by_cases hbig : 5000000 < h.length
  · rw [if_pos hbig, if_pos hbig]
    exact ⟨rfl, hdom0, hsel0⟩
  · rw [if_neg hbig, if_neg hbig]
    obtain ⟨g1, g2, g3⟩ := getElems_spec hinj hcoh hh hdom0 hsel0
    exact ⟨by rw [g1], g2, g3⟩

theorem runCalls_spec {parse : Str → Option DNode} {H : List Str}
    (hinj : ∀ h1 ∈ H, ∀ h2 ∈ H,
      generateHtmlHash h1 = generateHtmlHash h2 → h1 = h2)
    (hcoh : ∀ h1 ∈ H, ∀ h2 ∈ H, ∀ e1 ∈ elemsOfParse parse h1,
      ∀ e2 ∈ elemsOfParse parse h2,
      getElementCacheKey e1 = getElementCacheKey e2 →
      generateMeaningfulSelectorUncached e1 = generateMeaningfulSelectorUncached e2) :
    ∀ (calls : List CallArgs) (st : St), (∀ c ∈ calls, c.html ∈ H) →
      DomCacheFaithful parse H st.domCache →
      SelCacheFaithful parse H st.selCache →
      (runCalls parse calls st).1 =
        calls.map (fun c => tinyNoCache parse c.html c.opts) := by
  intro calls
  induction calls with
  | nil => intro st _ _ _; rfl
  | cons c t ih =>
    intro st hH hdom hsel
    obtain ⟨t1, t2, t3⟩ :=
      tiny_spec hinj hcoh (hH c (List.mem_cons_self _ _)) c.now c.opts hdom hsel
    unfold runCalls
    dsimp only
    rw [List.map_cons, t1,
        ih _ (fun x hx => hH x (List.mem_cons_of_mem _ hx)) t2 t3]

end Tinyshot

/-- C5 counterexample: two different inputs whose 31·h+c prefix hashes
collide (`Aa` and `BB` hash alike); the second cached call returns the stale
first document's elements, so the cached outputs differ from the cache-free
ones. -/
theorem c5_cache_transparency_cex :
    (Tinyshot.runCalls parseColl [⟨0, collA, {}⟩, ⟨0, collB, {}⟩] St.empty).1 ≠
      [Tinyshot.tinyNoCache parseColl collA {},
       Tinyshot.tinyNoCache parseColl collB {}] := by decide

/-- C5 amended: the cache layer is observationally transparent on every call
sequence in which distinct inputs have distinct content hashes and elements
with equal selector-cache keys have equal uncached selectors; under those
collision-freedom conditions every cached call returns exactly the cache-free
snapshot. -/
theorem c5_cache_transparency (parse : Str → Option DNode)
    (calls : List Tinyshot.CallArgs)
    (hinj : ∀ c1 ∈ calls, ∀ c2 ∈ calls,
      Tinyshot.generateHtmlHash c1.html = Tinyshot.generateHtmlHash c2.html →
      c1.html = c2.html)
    (hcoh : ∀ c1 ∈ calls, ∀ c2 ∈ calls, ∀ e1 ∈ elemsOfParse parse c1.html,
      ∀ e2 ∈ elemsOfParse parse c2.html,
      Tinyshot.getElementCacheKey e1 = Tinyshot.getElementCacheKey e2 →
      Tinyshot.generateMeaningfulSelectorUncached e1 =
        Tinyshot.generateMeaningfulSelectorUncached e2) :
    (Tinyshot.runCalls parse calls St.empty).1 =
      calls.map (fun c => Tinyshot.tinyNoCache parse c.html c.opts) := by
  refine @Tinyshot.runCalls_spec parse (calls.map Tinyshot.CallArgs.html)
    ?_ ?_ calls St.empty (fun c hc => List.mem_map_of_mem _ hc) ?_ ?_
  · intro h1 hh1 h2 hh2 heq
    obtain ⟨c1, hc1, rfl⟩ := List.mem_map.mp hh1
    obtain ⟨c2, hc2, rfl⟩ := List.mem_map.mp hh2
    exact hinj c1 hc1 c2 hc2 heq
  · intro h1 hh1 h2 hh2 e1 he1 e2 he2 hkey
    obtain ⟨c1, hc1, rfl⟩ := List.mem_map.mp hh1
    obtain ⟨c2, hc2, rfl⟩ := List.mem_map.mp hh2
    exact hcoh c1 hc1 c2 hc2 e1 he1 e2 he2 hkey
  · intro p hp
    cases hp
  · intro q hq
    cases hq

/-- C5 amended witness: a single collision-free call is reproduced exactly by
the cache-free implementation. -/
theorem c5_cache_transparency_witness :
    (Tinyshot.runCalls parseColl [⟨0, collA, {}⟩] St.empty).1 =
      [Tinyshot.tinyNoCache parseColl collA {}] :=
  c5_cache_transparency parseColl [⟨0, collA, {}⟩] (by decide) (by decide)
